import Mathlib

/-!
Verification development for the background-agents delegation plugin
(`src/plugin/background-agents.ts`).  The TypeScript source is shallowly
embedded: the `DelegationManager` class becomes a pure state-transition
system over `ManagerState`; external collaborators (the opencode client,
the summarizer model, the execution sessions, timers and the clock) are
supplied as explicit oracle parameters; the file-system result store is an
association list keyed by (directory, delegation id).  Every definition is
translated from the source; theorems at the end settle the frozen claims.
-/

namespace BackgroundAgents

-- ==========================================
-- Basic data model (mirrors the TS type definitions)
-- ==========================================

/-- Delegation lifecycle states, from the `status` union type of the
`Delegation` interface. -/
inductive Status
  | running
  | complete
  | error
  | cancelled
  | timeout
deriving DecidableEq, Repr

/-- Render a status the way TypeScript template interpolation would. -/
def statusText : Status → String
  | .running => "running"
  | .complete => "complete"
  | .error => "error"
  | .cancelled => "cancelled"
  | .timeout => "timeout"

/-- Statuses enumerated by the triggering notification filter in
`notifyParent` (complete, timeout or error - cancelled excluded). -/
def notifiedTerminalB : Status → Bool
  | .complete => true
  | .timeout => true
  | .error => true
  | _ => false

/-- The `Delegation` record of the source, restricted to the fields the
lifecycle logic reads or writes (the `progress` liveness sub-record and
`parentModel` are carried around opaquely by the source and are omitted).
Timestamps are modelled as natural-number clock readings. -/
structure Delegation where
  id : String
  sessionID : String
  parentSessionID : String
  parentMessageID : String
  parentAgent : String
  prompt : String
  agent : String
  status : Status
  startedAt : Nat
  completedAt : Option Nat
  error : Option String
  title : Option String
  description : Option String
deriving DecidableEq, Repr

/-- Input of `DelegationManager.delegate`. -/
structure DelegateInput where
  parentSessionID : String
  parentMessageID : String
  parentAgent : String
  prompt : String
  agent : String
deriving DecidableEq, Repr

/-- A notification prompt sent to the parent session by `notifyParent`.
`noReply` mirrors the body field of the same name (`false` = triggering).
`ids` records the delegation ids the message text enumerates: the filtered
list for the all-complete message, the single id for a silent one.
`remaining` is the `remainingCount` interpolated into the silent text. -/
structure Note where
  parentSessionID : String
  agent : String
  noReply : Bool
  ids : List String
  remaining : Nat
deriving DecidableEq, Repr

/-- Ordered trace of the externally visible effects of the terminal paths:
a result record write (`fs.writeFile` in `persistOutput`) and a parent
prompt (`client.session.prompt` in `notifyParent`). -/
inductive Effect
  | persist (id : String)
  | notify (id : String) (trigger : Bool)
deriving DecidableEq, Repr

/-- The mutable state of a `DelegationManager` instance plus the on-disk
result store and the stream of notifications it has issued.  Maps keep
JavaScript `Map`/`Set` insertion order as list order. -/
structure ManagerState where
  delegations : List Delegation
  pendingByParent : List (String × List String)
  store : List ((String × String) × String)
  notes : List Note
  log : List Effect
deriving DecidableEq, Repr

/-- A freshly constructed manager: empty registry, empty pending map,
empty store. -/
def initState : ManagerState := ⟨[], [], [], [], []⟩

/-- The session-parent relation held by the opencode server, consulted by
`getRootSessionID`; `none` models both a root session and a fetch failure
(the source treats the two identically). -/
structure Env where
  parentOf : String → Option String

-- ==========================================
-- Association-list helpers (JavaScript Map / Set with insertion order)
-- ==========================================

/-- `Map.get`. -/
def alGet {κ α : Type} [DecidableEq κ] : List (κ × α) → κ → Option α
  | [], _ => none
  | (k', v) :: rest, k => if k' = k then some v else alGet rest k

/-- `Map.set`: replace in place if the key is present, append otherwise. -/
def alSet {κ α : Type} [DecidableEq κ] : List (κ × α) → κ → α → List (κ × α)
  | [], k, v => [(k, v)]
  | (k', v') :: rest, k, v =>
    if k' = k then (k, v) :: rest else (k', v') :: alSet rest k v

/-- `Map.delete`. -/
def alRemove {κ α : Type} [DecidableEq κ] : List (κ × α) → κ → List (κ × α)
  | [], _ => []
  | (k', v') :: rest, k => if k' = k then rest else (k', v') :: alRemove rest k

/-- `this.delegations.get(id)`: the registry is keyed by delegation id. -/
def mapGet : List Delegation → String → Option Delegation
  | [], _ => none
  | d :: rest, k => if d.id = k then some d else mapGet rest k

/-- `this.delegations.set(d.id, d)`. -/
def mapSet : List Delegation → Delegation → List Delegation
  | [], d => [d]
  | e :: rest, d => if e.id = d.id then d :: rest else e :: mapSet rest d

/-- `this.delegations.delete(id)`. -/
def mapRemove : List Delegation → String → List Delegation
  | [], _ => []
  | e :: rest, k => if e.id = k then rest else e :: mapRemove rest k

/-- `Set.add`. -/
def setAdd (s : List String) (x : String) : List String :=
  if x ∈ s then s else s ++ [x]

/-- `Set.delete`. -/
def setErase : List String → String → List String
  | [], _ => []
  | y :: rest, x => if y = x then rest else y :: setErase rest x

-- ==========================================
-- Root-session resolution and the store key space
-- ==========================================

/-- `getRootSessionID`: walk the parent chain, at most 10 hops, falling
back to the current id when there is no parent or the fetch fails. -/
def getRootSessionID (env : Env) : Nat → String → String
  | 0, cur => cur
  | depth + 1, cur =>
    match env.parentOf cur with
    | none => cur
    | some p => getRootSessionID env depth p

/-- Root scope of a session, as used to namespace the delegations
directory. -/
def rootOf (env : Env) (sessionID : String) : String :=
  getRootSessionID env 10 sessionID

/-- The store key of a delegation record: directory (root of the parent
session) paired with the file name stem (the delegation id).  Keeping the
two components separate models `path.join(dir, id + ".md")`. -/
def recordKey (env : Env) (parentSessionID id : String) : String × String :=
  (rootOf env parentSessionID, id)

-- ==========================================
-- Metadata generation (generateMetadata and its truncation fallback)
-- ==========================================

/-- Title / description pair produced by `generateMetadata`. -/
structure GeneratedMetadata where
  title : String
  description : String
deriving DecidableEq, Repr

/-- JavaScript `String.prototype.trim` on the character list of a string. -/
def jsTrim (l : List Char) : List Char :=
  ((l.dropWhile Char.isWhitespace).reverse.dropWhile Char.isWhitespace).reverse

/-- JavaScript `String.prototype.split` with a single-character separator
(`"".split(sep)` is `[""]`, adjacent separators give empty fields). -/
def splitChar (sep : Char) : List Char → List (List Char)
  | [] => [[]]
  | c :: rest =>
    match splitChar sep rest with
    | [] => if c = sep then [[], []] else [[c]]
    | h :: t => if c = sep then [] :: h :: t else (c :: h) :: t

/-- The three-dot ellipsis appended by the truncation fallback. -/
def ellipsis : List Char := ['.', '.', '.']

/-- `resultContent.split("\n").find((l) => l.trim().length > 0) ||
"Delegation result"`. -/
def firstNonBlankLine (cs : List Char) : List Char :=
  ((splitChar '\n' cs).find? (fun l => 0 < (jsTrim l).length)).getD
    ("Delegation result".data)

/-- `firstLine.slice(0, 30).trim() + (firstLine.length > 30 ? "..." : "")`. -/
def fallbackTitleChars (cs : List Char) : List Char :=
  jsTrim ((firstNonBlankLine cs).take 30) ++
    (if 30 < (firstNonBlankLine cs).length then ellipsis else [])

/-- `resultContent.slice(0, 150).trim() + (resultContent.length > 150 ?
"..." : "")`. -/
def fallbackDescriptionChars (cs : List Char) : List Char :=
  jsTrim (cs.take 150) ++ (if 150 < cs.length then ellipsis else [])

/-- `fallbackMetadata` inside `generateMetadata`: first non-blank line
(or "Delegation result") truncated to 30 characters for the title, the
first 150 characters for the description, each with "..." appended when
the source was longer than the bound. -/
def fallbackMetadata (resultContent : String) : GeneratedMetadata :=
  { title := ⟨fallbackTitleChars resultContent.data⟩,
    description := ⟨fallbackDescriptionChars resultContent.data⟩ }

/-- `generateMetadata`: the small-model outcome is an oracle.  `none`
covers every failure branch of the source (no model configured, session
creation failure, prompt timeout, malformed response), all of which return
`fallbackMetadata`; `some (t, d)` is a parsed model reply, which the
source truncates with `slice(0, 30)` / `slice(0, 150)`. -/
def generateMetadata (modelReply : Option (String × String))
    (resultContent : String) : GeneratedMetadata :=
  match modelReply with
  | none => fallbackMetadata resultContent
  | some (t, d) => { title := ⟨t.data.take 30⟩, description := ⟨d.data.take 150⟩ }

-- ==========================================
-- Persistence and notification
-- ==========================================

/-- JavaScript `x || dflt` on an optional string field: the default is
used both when the field is absent and when it is the empty string. -/
def orElse (o : Option String) (dflt : String) : String :=
  match o with
  | some s => if s.length = 0 then dflt else s
  | none => dflt

/-- Render a clock reading where the source writes `toISOString()`. -/
def isoOf (t : Nat) : String := toString t

/-- The header block written by `persistOutput` ahead of the transcript. -/
def buildHeader (d : Delegation) : String :=
  "# " ++ orElse d.title d.id ++ "\n\n" ++
  orElse d.description "(No description generated)" ++
  "\n\n**ID:** " ++ d.id ++
  "\n**Agent:** " ++ d.agent ++
  "\n**Status:** " ++ statusText d.status ++
  "\n**Started:** " ++ isoOf d.startedAt ++
  "\n**Completed:** " ++
    (match d.completedAt with | some t => isoOf t | none => "N/A") ++
  "\n\n---\n\n"

/-- `persistOutput`: write header plus content to
`<root of parent>/<id>.md`, overwriting any previous record. -/
def persistOutput (env : Env) (st : ManagerState) (d : Delegation)
    (content : String) : ManagerState :=
  let key := recordKey env d.parentSessionID d.id
  { st with
    store := alSet st.store key (buildHeader d ++ content),
    log := st.log ++ [.persist d.id] }

/-- `notifyParent`, step 1: the owner's pending set after this
delegation's id is deleted from it (`none` when no set exists). -/
def pendingAfter (pending : List (String × List String)) (d : Delegation) :
    Option (List String) :=
  (alGet pending d.parentSessionID).map (fun s => setErase s d.id)

/-- `notifyParent`: `!pendingSet || pendingSet.size === 0` after the
delete. -/
def allCompleteB (pending : List (String × List String)) (d : Delegation) :
    Bool :=
  match pendingAfter pending d with
  | none => true
  | some s => s.isEmpty

/-- `notifyParent`: the pending map after the delete and the
empty-set cleanup. -/
def pendingMapAfter (pending : List (String × List String)) (d : Delegation) :
    List (String × List String) :=
  match pendingAfter pending d with
  | none => pending
  | some s =>
    if s.isEmpty then alRemove pending d.parentSessionID
    else alSet pending d.parentSessionID s

/-- `notifyParent`: `remainingCount`. -/
def remainingAfter (pending : List (String × List String)) (d : Delegation) :
    Nat :=
  ((pendingAfter pending d).map List.length).getD 0

/-- `notifyParent`: the registry delegations enumerated by the
all-complete message (same owner, terminal but not cancelled). -/
def enumeratedIds (dels : List Delegation) (d : Delegation) : List String :=
  (dels.filter (fun d2 =>
    d2.parentSessionID = d.parentSessionID &&
    notifiedTerminalB d2.status)).map (fun d2 => d2.id)

/-- The structured content of the notification `notifyParent` sends: the
enumerated ids (with the source's fallback to the single current id when
the filter is empty) for the triggering message, the current id and
remaining count for a silent one. -/
def notifyNote (pending : List (String × List String)) (dels : List Delegation)
    (d : Delegation) : Note :=
  if allCompleteB pending d then
    { parentSessionID := d.parentSessionID, agent := d.parentAgent,
      noReply := false,
      ids := if (enumeratedIds dels d).isEmpty then [d.id]
             else enumeratedIds dels d,
      remaining := remainingAfter pending d }
  else
    { parentSessionID := d.parentSessionID, agent := d.parentAgent,
      noReply := true, ids := [d.id], remaining := remainingAfter pending d }

/-- `notifyParent`: drain the pending set, decide silent versus
triggering, and prompt the parent session. -/
def notifyParent (st : ManagerState) (d : Delegation) : ManagerState :=
  { st with
    pendingByParent := pendingMapAfter st.pendingByParent d,
    notes := st.notes ++ [notifyNote st.pendingByParent st.delegations d],
    log := st.log ++ [.notify d.id (allCompleteB st.pendingByParent d)] }

-- ==========================================
-- delegate (submission)
-- ==========================================

/-- Error message of the collision-retry exhaustion path. -/
def allocExhaustedMsg : String :=
  "Failed to generate unique delegation ID after 10 attempts"

/-- Error message of the session-creation failure path. -/
def sessionFailedMsg : String := "Failed to create delegation session"

/-- Whether an id is already a registry key. -/
def hasId (st : ManagerState) (x : String) : Bool := (mapGet st.delegations x).isSome

/-- The collision-retry loop of `delegate`: while the candidate collides
and fewer than 10 retries have been spent, draw the next id from the
allocator.  `fuel` is the remaining retry budget (10 at the initial call),
`next` the index of the next allocator draw. -/
def allocLoop (has : String → Bool) (gen : Nat → String) :
    Nat → String → Nat → String
  | 0, cur, _ => cur
  | fuel + 1, cur, next =>
    if has cur then allocLoop has gen fuel (gen next) (next + 1) else cur

/-- The `Delegation` record `delegate` constructs and registers. -/
def newDelegation (input : DelegateInput) (finalId sid : String) (now : Nat) :
    Delegation :=
  { id := finalId, sessionID := sid,
    parentSessionID := input.parentSessionID,
    parentMessageID := input.parentMessageID,
    parentAgent := input.parentAgent,
    prompt := input.prompt, agent := input.agent,
    status := .running, startedAt := now, completedAt := none,
    error := none, title := none, description := none }

/-- The pending-set bookkeeping of `delegate`: create the owner's set if
absent, then add the id. -/
def pendingAdd (al : List (String × List String)) (p x : String) :
    List (String × List String) :=
  match alGet al p with
  | none => alSet al p (setAdd [] x)
  | some s => alSet al p (setAdd s x)

/-- `delegate`: allocate a collision-checked id, create the delegation
session (outcome supplied by the `sessionCreate` oracle), register the
delegation in `running` state and add it to the parent's pending set.
Throws (as `Except.error`) without registering anything when the retry
budget is exhausted or session creation fails.  The timeout timer armed
here and the asynchronous prompt dispatch are external events, modelled by
the separate `handleTimeout` / `dispatchFailure` transitions. -/
def delegate (_env : Env) (st : ManagerState) (input : DelegateInput)
    (gen : Nat → String) (sessionCreate : Option String) (now : Nat) :
    ManagerState × Except String Delegation :=
  let finalId := allocLoop (hasId st) gen 10 (gen 0) 1
  if hasId st finalId then (st, .error allocExhaustedMsg)
  else
    match sessionCreate with
    | none => (st, .error sessionFailedMsg)
    | some sid =>
      let d := newDelegation input finalId sid now
      ({ st with delegations := mapSet st.delegations d,
                 pendingByParent :=
                   pendingAdd st.pendingByParent input.parentSessionID finalId },
        .ok d)

-- ==========================================
-- Terminal transitions
-- ==========================================

/-- `findBySession`: first registry value whose delegation session matches. -/
def findBySession (st : ManagerState) (sessionID : String) : Option Delegation :=
  st.delegations.find? (fun d => d.sessionID = sessionID)

/-- Error string set by `handleTimeout`
(`MAX_RUN_TIME_MS / 1000` seconds). -/
def timeoutErrorMsg : String := "Delegation timed out after 300s"

/-- The field updates `handleSessionIdle` applies to a completing
delegation. -/
def completedOf (d : Delegation) (meta : GeneratedMetadata) (now : Nat) :
    Delegation :=
  { d with
    status := .complete, completedAt := some now,
    title := some meta.title, description := some meta.description }

/-- The field updates `handleTimeout` applies to a timed-out delegation. -/
def timedOutOf (d : Delegation) (now : Nat) : Delegation :=
  { d with
    status := .timeout, completedAt := some now,
    error := some timeoutErrorMsg }

/-- The field updates the dispatch `.catch` handler applies to a failed
delegation. -/
def erroredOf (d : Delegation) (msg : String) (now : Nat) : Delegation :=
  { d with status := .error, error := some msg, completedAt := some now }

/-- `handleTimeout`: no-op unless the delegation exists and is running;
otherwise mark it timed out, best-effort cancel the session (external,
failures swallowed), persist the partial transcript annotated as a
timeout, and notify.  `result` is the transcript the external
`getResult` fetch produced. -/
def handleTimeout (env : Env) (st : ManagerState) (delegationId : String)
    (result : String) (now : Nat) : ManagerState :=
  match mapGet st.delegations delegationId with
  | none => st
  | some d =>
    if d.status = .running then
      let d' := timedOutOf d now
      let st1 := { st with delegations := mapSet st.delegations d' }
      notifyParent (persistOutput env st1 d' (result ++ "\n\n[TIMEOUT REACHED]")) d'
    else st

/-- `handleSessionIdle`: no-op unless the session maps to a running
delegation; otherwise mark it complete, store the summarizer metadata,
persist the transcript, and notify.  `result` is the transcript fetched
by `getResult` and `meta` the `generateMetadata` outcome, both external. -/
def handleSessionIdle (env : Env) (st : ManagerState) (sessionID : String)
    (result : String) (meta : GeneratedMetadata) (now : Nat) : ManagerState :=
  match findBySession st sessionID with
  | none => st
  | some d =>
    if d.status = .running then
      let d' := completedOf d meta now
      let st1 := { st with delegations := mapSet st.delegations d' }
      notifyParent (persistOutput env st1 d' result) d'
    else st

/-- The `.catch` handler of the asynchronous prompt dispatch in
`delegate`: mark the delegation errored (the source checks no status
guard here), persist an error transcript and notify the parent.  The
source awaits neither call, so the record write and the notification
prompt race; `persistFirst` selects which of the two interleavings is
being observed (the final state differs only in effect order).  The op
models the promise rejection for a delegation still registered. -/
def dispatchFailure (env : Env) (st : ManagerState) (id msg : String)
    (now : Nat) (persistFirst : Bool) : ManagerState :=
  match mapGet st.delegations id with
  | none => st
  | some d =>
    let d' := erroredOf d msg now
    let st1 := { st with delegations := mapSet st.delegations d' }
    if persistFirst then
      notifyParent (persistOutput env st1 d' ("Error: " ++ msg)) d'
    else
      persistOutput env (notifyParent st1 d') d' ("Error: " ++ msg)

/-- `deleteDelegation`: cancel a running delegation, drop it from the
registry and unlink its record file, returning whether the unlink
succeeded.  The pending set is not touched. -/
def deleteDelegation (env : Env) (st : ManagerState) (sessionID id : String)
    (_now : Nat) : ManagerState × Bool :=
  let st1 :=
    match mapGet st.delegations id with
    | none => st
    | some _ => { st with delegations := mapRemove st.delegations id }
  let key := (rootOf env sessionID, id)
  match alGet st1.store key with
  | some _ => ({ st1 with store := alRemove st1.store key }, true)
  | none => (st1, false)

-- ==========================================
-- readOutput and the completion wait
-- ==========================================

/-- Global run-time ceiling (5 minutes, in milliseconds). -/
def MAX_RUN_TIME_MS : Nat := 5 * 60 * 1000

/-- Fixed re-check interval of `waitForCompletion`, in milliseconds. -/
def pollInterval : Nat := 1000

/-- The polling loop of `waitForCompletion`: at poll `k` the delegation's
status (as mutated by the concurrent terminal handlers) is `statusAt k`;
the loop sleeps `pollInterval` and re-checks while the status is still
`running` and less than `MAX_RUN_TIME_MS + 10000` ms have elapsed.  The
elapsed time is `pollInterval * k`, so the guard alone stops the loop by
`k = 310`; the structural `fuel` of `311` therefore never binds (see the
exit lemma below). -/
def waitLoop (statusAt : Nat → Status) : Nat → Nat → Nat
  | 0, k => k
  | fuel + 1, k =>
    if statusAt k = .running ∧ pollInterval * k < MAX_RUN_TIME_MS + 10000 then
      waitLoop statusAt fuel (k + 1)
    else k

/-- Number of sleeps `waitForCompletion` performs. -/
def waitPolls (statusAt : Nat → Status) : Nat := waitLoop statusAt 311 0

/-- Message synthesized by `readOutput` when, after the wait, no record
file exists but the delegation is terminal. -/
def endedMsg (u : Delegation) : String :=
  "Delegation \"" ++ orElse u.title u.id ++ "\" ended with status: " ++
  statusText u.status ++ ". " ++ orElse u.error ""

/-- The not-found error thrown by `readOutput`. -/
def notFoundMsg (id : String) : String := "Delegation not found: " ++ id

/-- `readOutput`: return the persisted record if it exists; otherwise, if
the id maps to a running delegation, wait (bounded polling), then re-read
the record, fall back to a synthesized terminal-status message, and throw
not-found in every remaining case.  `stC` is the manager state when the
call is made and `stA` the state once the wait returns (terminal handlers
run concurrently); `statusAt` is the status trajectory the poll observes.
The returned number is the total time slept, in milliseconds. -/
def readOutput (env : Env) (stC stA : ManagerState) (statusAt : Nat → Status)
    (sessionID id : String) : Nat × Except String String :=
  let key := (rootOf env sessionID, id)
  match alGet stC.store key with
  | some content => (0, .ok content)
  | none =>
    match mapGet stC.delegations id with
    | some d =>
      if d.status = .running then
        let waited := pollInterval * waitPolls statusAt
        match alGet stA.store key with
        | some content => (waited, .ok content)
        | none =>
          match mapGet stA.delegations id with
          | some u =>
            if u.status ≠ .running then (waited, .ok (endedMsg u))
            else (waited, .error (notFoundMsg id))
          | none => (waited, .error (notFoundMsg id))
      else (0, .error (notFoundMsg id))
    | none => (0, .error (notFoundMsg id))

-- ==========================================
-- Event traces
-- ==========================================

/-- External events driving the manager: a tool submission, a
`session.idle` signal, a timeout-timer firing, an asynchronous dispatch
rejection, and an internal delete.  Oracle data (allocator draws, session
creation, transcripts, summaries, clock readings) travels with the
event. -/
inductive Op
  | submit (input : DelegateInput) (gen : Nat → String)
      (sessionCreate : Option String) (now : Nat)
  | idle (sessionID result : String) (meta : GeneratedMetadata) (now : Nat)
  | timeoutFire (id result : String) (now : Nat)
  | dispatchFail (id msg : String) (now : Nat) (persistFirst : Bool)
  | del (sessionID id : String) (now : Nat)

/-- One event applied to the manager state. -/
def step (env : Env) (st : ManagerState) : Op → ManagerState
  | .submit input gen sessionCreate now =>
    (delegate env st input gen sessionCreate now).1
  | .idle sessionID result meta now =>
    handleSessionIdle env st sessionID result meta now
  | .timeoutFire id result now => handleTimeout env st id result now
  | .dispatchFail id msg now persistFirst =>
    dispatchFailure env st id msg now persistFirst
  | .del sessionID id now => (deleteDelegation env st sessionID id now).1

/-- A full event trace. -/
def run (env : Env) (st : ManagerState) : List Op → ManagerState
  | [] => st
  | op :: rest => run env (step env st op) rest

/-- Whether every notification effect in a log is preceded by the persist
effect of the same delegation's record. -/
def okLogAux (persisted : List String) : List Effect → Bool
  | [] => true
  | .persist i :: rest => okLogAux (i :: persisted) rest
  | .notify i _ :: rest => decide (i ∈ persisted) && okLogAux persisted rest

/-- Persistence-before-notification holds of an effect log. -/
def okLog (l : List Effect) : Bool := okLogAux [] l

-- ==========================================
-- Batch scenarios: N submissions under one owner, each reaching a
-- notified terminal state
-- ==========================================

/-- How one member of a batch reaches its terminal state: a
`session.idle` signal, the timeout timer, or an asynchronous dispatch
rejection. -/
inductive TermKind
  | idle
  | timedOut
  | dispatchFail
deriving DecidableEq, Repr

/-- One member of a batch: its allocator draw (`id`), the session the
adapter created for it, its prompt/agent, how it terminates, and the
oracle data its terminal handler consumes. -/
structure BatchItem where
  id : String
  sessionID : String
  prompt : String
  agent : String
  kind : TermKind
  result : String
  meta : GeneratedMetadata
  msg : String
deriving DecidableEq, Repr

/-- The `delegate` input of a batch member. -/
def itemInput (P pm pa : String) (it : BatchItem) : DelegateInput :=
  ⟨P, pm, pa, it.prompt, it.agent⟩

/-- The registry entry `delegate` creates for a batch member
(submission clock reading 0). -/
def mkRunning (P pm pa : String) (it : BatchItem) : Delegation :=
  { id := it.id, sessionID := it.sessionID, parentSessionID := P,
    parentMessageID := pm, parentAgent := pa, prompt := it.prompt,
    agent := it.agent, status := .running, startedAt := 0,
    completedAt := none, error := none, title := none, description := none }

/-- The registry entry after the member's terminal handler ran
(terminal clock reading 1). -/
def mkDone (P pm pa : String) (it : BatchItem) : Delegation :=
  match it.kind with
  | .idle => completedOf (mkRunning P pm pa it) it.meta 1
  | .timedOut => timedOutOf (mkRunning P pm pa it) 1
  | .dispatchFail => erroredOf (mkRunning P pm pa it) it.msg 1

/-- Terminal status reached through each terminal kind. -/
def termStatus : TermKind → Status
  | .idle => .complete
  | .timedOut => .timeout
  | .dispatchFail => .error

/-- The transcript body the member's terminal handler persists. -/
def rawContent (it : BatchItem) : String :=
  match it.kind with
  | .idle => it.result
  | .timedOut => it.result ++ "\n\n[TIMEOUT REACHED]"
  | .dispatchFail => "Error: " ++ it.msg

/-- Full record content of a terminated batch member. -/
def doneContent (P pm pa : String) (it : BatchItem) : String :=
  buildHeader (mkDone P pm pa it) ++ rawContent it

/-- The silent notification a non-final member produces. -/
def silentNoteFor (P pa : String) (it : BatchItem) (remaining : Nat) : Note :=
  { parentSessionID := P, agent := pa, noReply := true,
    ids := [it.id], remaining := remaining }

/-- The triggering notification the final member produces, enumerating
the whole batch in registry order. -/
def triggerNoteFor (P pa : String) (items : List BatchItem) : Note :=
  { parentSessionID := P, agent := pa, noReply := false,
    ids := items.map (fun it => it.id), remaining := 0 }

/-- The notification produced by the member processed at position `j` of
the terminal phase. -/
def noteAt (P pa : String) (items : List BatchItem) (j : Nat) (it : BatchItem) :
    Note :=
  if j + 1 = items.length then triggerNoteFor P pa items
  else silentNoteFor P pa it (items.length - 1 - j)

/-- Notifications accumulated after the terminal phase processed the
given members (in processing order), starting at position `j`. -/
def buildNotesAux (P pa : String) (items : List BatchItem) :
    Nat → List BatchItem → List Note
  | _, [] => []
  | j, it :: rest => noteAt P pa items j it :: buildNotesAux P pa items (j + 1) rest

/-- Effect log accumulated by the terminal phase. -/
def buildLogAux (items : List BatchItem) : Nat → List BatchItem → List Effect
  | _, [] => []
  | j, it :: rest =>
    .persist it.id :: .notify it.id (decide (j + 1 = items.length)) ::
      buildLogAux items (j + 1) rest

/-- Registry entry of a batch member given the set of already-terminated
ids. -/
def stepFun (P pm pa : String) (doneIds : List String) (it : BatchItem) :
    Delegation :=
  if it.id ∈ doneIds then mkDone P pm pa it else mkRunning P pm pa it

/-- Manager state in the middle of a batch's terminal phase: all of
`items` were submitted (in list order) from a fresh manager, and the
members of `done` (a prefix of the processing order) have terminated. -/
def midState (env : Env) (P pm pa : String) (items done : List BatchItem) :
    ManagerState :=
  let doneIds := done.map (fun it => it.id)
  let remIds := (items.map (fun it => it.id)).filter (fun x => decide (x ∉ doneIds))
  { delegations := items.map (stepFun P pm pa doneIds),
    pendingByParent := if remIds.isEmpty then [] else [(P, remIds)],
    store := done.map (fun it => ((rootOf env P, it.id), doneContent P pm pa it)),
    notes := buildNotesAux P pa items 0 done,
    log := buildLogAux items 0 done }

/-- Apply a batch member's terminal event. -/
def applyTerm (env : Env) (st : ManagerState) (it : BatchItem) : ManagerState :=
  match it.kind with
  | .idle => handleSessionIdle env st it.sessionID it.result it.meta 1
  | .timedOut => handleTimeout env st it.id it.result 1
  | .dispatchFail => dispatchFailure env st it.id it.msg 1 true

/-- Run the terminal phase over the given processing order. -/
def runTerms (env : Env) : List BatchItem → ManagerState → ManagerState
  | [], st => st
  | it :: rest, st => runTerms env rest (applyTerm env st it)

/-- Submit every batch member in list order. -/
def submitAll (env : Env) (P pm pa : String) :
    List BatchItem → ManagerState → ManagerState
  | [], st => st
  | it :: rest, st =>
    submitAll env P pm pa rest
      (delegate env st (itemInput P pm pa it) (fun _ => it.id)
        (some it.sessionID) 0).1

/-- Manager state after the submission phase registered the given
members from a fresh manager. -/
def submitState (P pm pa : String) (sub : List BatchItem) : ManagerState :=
  { delegations := sub.map (mkRunning P pm pa),
    pendingByParent := if sub.isEmpty then [] else [(P, sub.map (fun it => it.id))],
    store := [], notes := [], log := [] }

/-- A whole batch run: submit `items` from a fresh manager, then process
their terminal events in order `q`. -/
def batchRun (env : Env) (P pm pa : String) (items q : List BatchItem) :
    ManagerState :=
  runTerms env q (submitAll env P pm pa items initState)

-- ==========================================
-- Concrete scenario states used by the counterexamples and witnesses
-- ==========================================

/-- Parent-chain oracle with every session a root. -/
def envNone : Env := ⟨fun _ => none⟩

/-- A concrete submission input under owner scope "p1". -/
def inputP1 : DelegateInput := ⟨"p1", "m1", "build", "investigate", "general"⟩

/-- One delegation is submitted under "p1", then cancelled via
`deleteDelegation`; the timeout timer later fires against the
already-removed id. -/
def cancelRunState : ManagerState :=
  run envNone initState
    [ .submit inputP1 (fun _ => "brave-red-fox") (some "s1") 0,
      .del "p1" "brave-red-fox" 2,
      .timeoutFire "brave-red-fox" "partial" 3 ]

/-- The same cancellation trace, kept separately for the batched
notification claim. -/
def cancelBatchState : ManagerState :=
  run envNone initState
    [ .submit inputP1 (fun _ => "calm-teal-owl") (some "s1") 0,
      .del "p1" "calm-teal-owl" 2,
      .timeoutFire "calm-teal-owl" "partial" 3 ]

/-- One delegation whose asynchronous dispatch rejects, observed in the
interleaving where the notification prompt is issued before the record
write completes (the source awaits neither). -/
def dispatchRaceState : ManagerState :=
  run envNone initState
    [ .submit inputP1 (fun _ => "fast-gold-elk") (some "s1") 0,
      .dispatchFail "fast-gold-elk" "boom" 1 false ]

/-- A single running delegation under "p1", used to instantiate
hypotheses about a live registry entry. -/
def oneRunningState : ManagerState :=
  run envNone initState [ .submit inputP1 (fun _ => "wise-jade-hare") (some "s1") 0 ]

/-- The state of `oneRunningState` after its delegation completed. -/
def oneCompleteState : ManagerState :=
  run envNone oneRunningState [ .idle "s1" "found it" ⟨"Title", "Desc"⟩ 1 ]

/-- A registry whose only delegation is terminal while no record file
exists: the persisted store is erased after completion. -/
def terminalNoRecordState : ManagerState :=
  { oneCompleteState with store := [] }

/-- Two delegations already registered under ids "a" and "b". -/
def twoCollideState : ManagerState :=
  run envNone initState
    [ .submit inputP1 (fun _ => "a") (some "sA") 0,
      .submit inputP1 (fun _ => "b") (some "sB") 0 ]

/-- An allocator whose first two draws collide with the registered ids
and whose third draw is fresh. -/
def genABC : Nat → String :=
  fun n => if n = 0 then "a" else if n = 1 then "b" else "c"

/-- Number of store entries under a given key. -/
def recordCount (st : ManagerState) (k : String × String) : Nat :=
  (st.store.filter (fun e => decide (e.1 = k))).length

/-- First member of the concrete witness batch: completes via
`session.idle`. -/
def itemA : BatchItem :=
  { id := "id-a", sessionID := "sa", prompt := "first task",
    agent := "general", kind := .idle, result := "res A",
    meta := ⟨"TA", "DA"⟩, msg := "" }

/-- Second member of the concrete witness batch: times out. -/
def itemB : BatchItem :=
  { id := "id-b", sessionID := "sb", prompt := "second task",
    agent := "general", kind := .timedOut, result := "res B",
    meta := ⟨"TB", "DB"⟩, msg := "" }

/-- The concrete witness batch, in submission order. -/
def batchItems : List BatchItem := [itemA, itemB]

/-- The witness batch's terminal events arrive in the opposite order. -/
def batchOrder : List BatchItem := [itemB, itemA]

/-- Whether an event is an asynchronous dispatch rejection. -/
def opIsDispatchFail : Op → Bool
  | .dispatchFail _ _ _ _ => true
  | _ => false

/-- The delegation registered by `delegate envNone initState inputP1`
with allocator draw "id-w" and created session "sW". -/
def dW : Delegation :=
  { id := "id-w", sessionID := "sW", parentSessionID := "p1",
    parentMessageID := "m1", parentAgent := "build", prompt := "investigate",
    agent := "general", status := .running, startedAt := 0,
    completedAt := none, error := none, title := none, description := none }

-- ==========================================
-- Helper lemmas
-- ==========================================

theorem jsTrim_length_le (l : List Char) : (jsTrim l).length ≤ l.length := by
  unfold jsTrim
  calc ((l.dropWhile Char.isWhitespace).reverse.dropWhile
          Char.isWhitespace).reverse.length
      = ((l.dropWhile Char.isWhitespace).reverse.dropWhile
          Char.isWhitespace).length := List.length_reverse _
    _ ≤ (l.dropWhile Char.isWhitespace).reverse.length :=
        (List.dropWhile_sublist _).length_le
    _ = (l.dropWhile Char.isWhitespace).length := List.length_reverse _
    _ ≤ l.length := (List.dropWhile_sublist _).length_le

theorem mapGet_mapSet_self (l : List Delegation) (d : Delegation) :
    mapGet (mapSet l d) d.id = some d := by
  induction l with
  | nil => simp [mapSet, mapGet]
  | cons e rest ih =>
    by_cases h : e.id = d.id
    · simp [mapSet, mapGet, h]
    · simp [mapSet, mapGet, h, ih]

theorem alGet_alSet_self {κ α : Type} [DecidableEq κ]
    (l : List (κ × α)) (k : κ) (v : α) : alGet (alSet l k v) k = some v := by
  induction l with
  | nil => simp [alSet, alGet]
  | cons e rest ih =>
    by_cases h : e.1 = k
    · simp [alSet, alGet, h]
    · cases e with
      | mk k' v' =>
        simp only at h
        simp [alSet, alGet, h, ih]

theorem mem_setAdd_self (s : List String) (x : String) : x ∈ setAdd s x := by
  unfold setAdd
  split
  · assumption
  · simp

theorem alGet_pendingAdd_self (al : List (String × List String)) (p x : String) :
    alGet (pendingAdd al p x) p = some (setAdd ((alGet al p).getD []) x) := by
  unfold pendingAdd
  cases h : alGet al p <;> simp [h, alGet_alSet_self]

theorem ManagerState_ext (a b : ManagerState)
    (h1 : a.delegations = b.delegations)
    (h2 : a.pendingByParent = b.pendingByParent)
    (h3 : a.store = b.store) (h4 : a.notes = b.notes) (h5 : a.log = b.log) :
    a = b := by
  cases a
  cases b
  simp_all

theorem strLength_mk (l : List Char) : String.length ⟨l⟩ = l.length := rfl

theorem take_length_le {α : Type} (l : List α) (n : Nat) :
    (l.take n).length ≤ n := by
  simp [List.length_take]

theorem trim_take_append_le (l : List Char) (n : Nat) (tail : List Char)
    (htail : tail.length ≤ 3) :
    (jsTrim (l.take n) ++ tail).length ≤ n + 3 := by
  rw [List.length_append]
  have h1 : (jsTrim (l.take n)).length ≤ n :=
    le_trans (jsTrim_length_le _) (take_length_le l n)
  omega

theorem ite_ellipsis_length_le (c : Prop) [Decidable c] :
    (if c then ellipsis else ([] : List Char)).length ≤ 3 := by
  split <;> simp [ellipsis]

-- ==========================================
-- Claim C8
-- ==========================================

/-- Claim C8 (amended): on the model path, `generateMetadata` returns a
title of at most 30 characters and a description of at most 150; on the
truncation fallback path (summarizer unavailable or failed), the title is
bounded by 33 characters and the description by 153, because the source
appends a three-character ellipsis after truncating to 30 / 150. -/
theorem C8_metadata_length_bounds (t d s : String) :
    (generateMetadata (some (t, d)) s).title.length ≤ 30 ∧
    (generateMetadata (some (t, d)) s).description.length ≤ 150 ∧
    (generateMetadata none s).title.length ≤ 33 ∧
    (generateMetadata none s).description.length ≤ 153 := by
  refine ⟨?_, ?_, ?_, ?_⟩
  · show (t.data.take 30).length ≤ 30
    exact take_length_le _ _
  · show (d.data.take 150).length ≤ 150
    exact take_length_le _ _
  · show (fallbackTitleChars s.data).length ≤ 33
    exact trim_take_append_le _ 30 _ (ite_ellipsis_length_le _)
  · show (fallbackDescriptionChars s.data).length ≤ 153
    exact trim_take_append_le _ 150 _ (ite_ellipsis_length_le _)

/-- Claim C8 counterexample: a 31-character single-line transcript makes
the fallback title 33 characters long, exceeding the claimed 30-character
bound (`slice(0, 30)` plus the appended "..."). -/
theorem C8_counterexample_fallback_title :
    30 < (fallbackMetadata "aaaaaaaaaaaaaaaaaaaaaaaaaaaaaaa").title.length ∧
    (fallbackMetadata "aaaaaaaaaaaaaaaaaaaaaaaaaaaaaaa").title.length = 33 := by
  constructor <;> decide

-- ==========================================
-- Claims C5, C6, C7 (submission)
-- ==========================================

/-- Claim C6: when delegation-session creation fails, `delegate` raises a
hard error and registers nothing: the registry, every pending set and the
persisted store are exactly as before the call (the whole manager state
is unchanged). -/
theorem C6_session_failure_registers_nothing (env : Env) (st : ManagerState)
    (input : DelegateInput) (gen : Nat → String) (now : Nat) :
    (delegate env st input gen none now).1 = st ∧
    ∃ e, (delegate env st input gen none now).2 = .error e := by
  by_cases hb : hasId st (allocLoop (hasId st) gen 10 (gen 0) 1) = true
  all_goals simp [delegate, hb]

/-- Claim C5: immediately after a successful `delegate`, the returned id
is a registry key mapping to the returned delegation, the delegation is
in `running` state, and its id is a member of the submitting owner's
pending set. -/
theorem C5_submit_registers_running_pending (env : Env) (st st' : ManagerState)
    (input : DelegateInput) (gen : Nat → String) (sc : Option String)
    (now : Nat) (d : Delegation)
    (h : delegate env st input gen sc now = (st', .ok d)) :
    mapGet st'.delegations d.id = some d ∧ d.status = .running ∧
    d.id ∈ (alGet st'.pendingByParent input.parentSessionID).getD [] := by
  simp only [delegate] at h
  split at h
  · simp at h
  · cases sc with
    | none => simp at h
    | some sid =>
      simp only [Prod.mk.injEq] at h
      obtain ⟨hst, hd⟩ := h
      injection hd with hd
      subst hd
      subst hst
      refine ⟨mapGet_mapSet_self _ _, rfl, ?_⟩
      simp only [alGet_pendingAdd_self, Option.getD_some]
      exact mem_setAdd_self _ _

theorem allocLoop_all (has : String → Bool) (gen : Nat → String) :
    ∀ fuel m, (∀ j, m ≤ j → j ≤ m + fuel → has (gen j) = true) →
      allocLoop has gen fuel (gen m) (m + 1) = gen (m + fuel) := by
  intro fuel
  induction fuel with
  | zero => intro m _; simp [allocLoop]
  | succ f ih =>
    intro m h
    have hm : has (gen m) = true := h m le_rfl (by omega)
    rw [allocLoop, if_pos hm]
    have := ih (m + 1) (fun j hj1 hj2 => h j (by omega) (by omega))
    rw [this]
    congr 1
    omega

theorem allocLoop_first (has : String → Bool) (gen : Nat → String) :
    ∀ fuel m k, m ≤ k → k ≤ m + fuel → has (gen k) = false →
      (∀ j, m ≤ j → j < k → has (gen j) = true) →
      allocLoop has gen fuel (gen m) (m + 1) = gen k := by
  intro fuel
  induction fuel with
  | zero =>
    intro m k h1 h2 _ _
    have : k = m := by omega
    subst this
    simp [allocLoop]
  | succ f ih =>
    intro m k h1 h2 hk hbelow
    by_cases hm : m = k
    · subst hm
      rw [allocLoop, if_neg (by simp [hk])]
    · have hmlt : m < k := by omega
      have hmtrue : has (gen m) = true := hbelow m le_rfl hmlt
      rw [allocLoop, if_pos hmtrue]
      exact ih (m + 1) k (by omega) (by omega) hk
        (fun j hj1 hj2 => hbelow j (by omega) hj2)

/-- Claim C7: on every submission the collision loop re-invokes the
allocator at most 10 times after the initial draw; `delegate` fails with
the allocation-exhausted error exactly when all eleven consecutive draws
(the initial one and the 10 retries) collide with registry keys, and
otherwise registers the delegation under the first non-colliding draw. -/
theorem C7_id_collision_retry_bound (env : Env) (st : ManagerState)
    (input : DelegateInput) (gen : Nat → String) (s : String) (now : Nat) :
    ((delegate env st input gen (some s) now).2 = .error allocExhaustedMsg ↔
      ∀ k, k ≤ 10 → hasId st (gen k) = true) ∧
    (∀ k, k ≤ 10 → hasId st (gen k) = false →
      (∀ j, j < k → hasId st (gen j) = true) →
      ∃ d, (delegate env st input gen (some s) now).2 = .ok d ∧ d.id = gen k ∧
        mapGet (delegate env st input gen (some s) now).1.delegations (gen k) =
          some d) := by
  constructor
  · constructor
    · intro herr
      by_contra hnot
      push_neg at hnot
      obtain ⟨k0, hk0le, hk0⟩ := hnot
      have hex : ∃ k, hasId st (gen k) = false ∧ k ≤ 10 :=
        ⟨k0, by simpa using hk0, hk0le⟩
      classical
      obtain ⟨k, ⟨hkfalse, hkle⟩, hmin⟩ := Nat.findX hex
      have hloop : allocLoop (hasId st) gen 10 (gen 0) 1 = gen k := by
        have := allocLoop_first (hasId st) gen 10 0 k (Nat.zero_le k)
          (by omega) hkfalse (fun j _ hj => by
            by_contra hjf
            exact absurd ⟨by simpa using hjf, by omega⟩ (hmin j hj))
        simpa using this
      rw [delegate] at herr
      simp only [hloop, hkfalse, Bool.false_eq_true, if_false] at herr
      simp at herr
    · intro hall
      have hloop : allocLoop (hasId st) gen 10 (gen 0) 1 = gen 10 := by
        have := allocLoop_all (hasId st) gen 10 0 (fun j _ hj => hall j (by omega))
        simpa using this
      rw [delegate]
      simp only [hloop, hall 10 le_rfl, if_true]
  · intro k hkle hkfalse hbelow
    have hloop : allocLoop (hasId st) gen 10 (gen 0) 1 = gen k := by
      have := allocLoop_first (hasId st) gen 10 0 k (Nat.zero_le k)
        (by omega) hkfalse (fun j _ hj => hbelow j hj)
      simpa using this
    rw [delegate]
    simp only [hloop, hkfalse, Bool.false_eq_true, if_false]
    exact ⟨_, rfl, rfl, mapGet_mapSet_self _ _⟩

/-- Claim C7 witness: with ids "a" and "b" registered and an allocator
drawing "a", "b", "c", the engine registers the delegation under "c". -/
theorem C7_id_collision_retry_bound_witness :
    ∃ d, (delegate envNone twoCollideState inputP1 genABC (some "s3") 5).2 =
        .ok d ∧ d.id = genABC 2 ∧
      mapGet (delegate envNone twoCollideState inputP1 genABC
        (some "s3") 5).1.delegations (genABC 2) = some d :=
  (C7_id_collision_retry_bound envNone twoCollideState inputP1 genABC
    "s3" 5).2 2 (by decide) (by decide) (by decide)

-- ==========================================
-- Claim C2 (and the cancellation counterexample for C1)
-- ==========================================

/-- Claim C2 (code-bug evaluation): submit one delegation under owner
"p1", then cancel it via `deleteDelegation`, then let the armed timeout
timer fire.  The delegation reached a terminal state (cancelled) and was
removed from the registry, yet its id is still a member of the owner's
pending set and no notification was ever sent - so the id was not removed
at its terminal transition, and the owner's batch barrier is wedged
permanently (every later completion under "p1" will count this id as
still pending). -/
theorem C2_cancel_never_drains_pending :
    alGet cancelRunState.pendingByParent "p1" = some ["brave-red-fox"] ∧
    mapGet cancelRunState.delegations "brave-red-fox" = none ∧
    cancelRunState.notes = [] := by
  refine ⟨?_, ?_, ?_⟩ <;> rfl

/-- Claim C1 counterexample: a batch of N = 1 delegation whose only
member reaches the terminal state `cancelled` (via `deleteDelegation`)
produces zero triggering notifications, not exactly one, even after the
timeout timer fires: the claim fails on runs that cancel a member. -/
theorem C1_counterexample_cancelled_member_blocks_trigger :
    ((cancelBatchState.notes.filter (fun n => !n.noReply)).length = 0) ∧
    ¬ ((cancelBatchState.notes.filter (fun n => !n.noReply)).length = 1) := by
  constructor <;> decide

/-- Claim C4 counterexample: when the asynchronous prompt dispatch
rejects, the `.catch` handler awaits neither `persistOutput` nor
`notifyParent`; in the interleaving where the notification prompt is
issued first (which the source permits, since `persistOutput` must await
a session fetch before reaching its write), the effect log shows the
notification preceding the record write, so persistence does not strictly
precede notification on the dispatch-failure path. -/
theorem C4_counterexample_dispatch_notify_before_persist :
    okLog dispatchRaceState.log = false ∧
    dispatchRaceState.log =
      [.notify "fast-gold-elk" true, .persist "fast-gold-elk"] := by
  constructor <;> rfl

-- ==========================================
-- Claim C3 (handler idempotence)
-- ==========================================

theorem mapGet_id (l : List Delegation) (k : String) (d : Delegation)
    (h : mapGet l k = some d) : d.id = k := by
  induction l with
  | nil => simp [mapGet] at h
  | cons e rest ih =>
    by_cases he : e.id = k
    · simp only [mapGet] at h
      rw [if_pos he] at h
      injection h with h
      subst h
      exact he
    · simp only [mapGet] at h
      rw [if_neg he] at h
      exact ih h

theorem mapGet_mapSet_of_key (l : List Delegation) (k : String)
    (d d' : Delegation) (h : mapGet l k = some d) (hd' : d'.id = k) :
    mapGet (mapSet l d') k = some d' := by
  induction l with
  | nil => simp [mapGet] at h
  | cons e rest ih =>
    by_cases he : e.id = k
    · have heid : e.id = d'.id := by rw [he, hd']
      simp only [mapSet]
      rw [if_pos heid]
      simp only [mapGet]
      rw [if_pos hd']
    · have hene : e.id ≠ d'.id := by rw [hd']; exact he
      simp only [mapGet] at h
      rw [if_neg he] at h
      simp only [mapSet]
      rw [if_neg hene]
      simp only [mapGet]
      rw [if_neg he]
      exact ih h

theorem find_sessionID_mapSet (l : List Delegation) (sid : String)
    (d d' : Delegation) (hnd : (l.map (fun x => x.id)).Nodup)
    (hf : l.find? (fun x => decide (x.sessionID = sid)) = some d)
    (hid : d'.id = d.id) (hsess : d'.sessionID = d.sessionID) :
    (mapSet l d').find? (fun x => decide (x.sessionID = sid)) = some d' := by
  induction l with
  | nil => simp at hf
  | cons e rest ih =>
    rw [List.map_cons, List.nodup_cons] at hnd
    by_cases he : e.sessionID = sid
    · rw [List.find?_cons_of_pos _ (by simpa using he)] at hf
      injection hf with hf
      subst hf
      have heid : e.id = d'.id := hid.symm
      simp only [mapSet]
      rw [if_pos heid]
      exact List.find?_cons_of_pos _ (by simpa [hsess] using he)
    · rw [List.find?_cons_of_neg _ (by simpa using he)] at hf
      have hdrest : d ∈ rest := List.mem_of_find?_eq_some hf
      have hdid : d.id ∈ rest.map (fun x => x.id) :=
        List.mem_map_of_mem _ hdrest
      have hene : e.id ≠ d'.id := by
        rw [hid]
        intro hcontra
        exact hnd.1 (hcontra ▸ hdid)
      simp only [mapSet]
      rw [if_neg hene]
      rw [List.find?_cons_of_neg _ (by simpa using he)]
      exact ih hnd.2 hf

theorem handleSessionIdle_noop (env : Env) (st : ManagerState)
    (sid r : String) (meta : GeneratedMetadata) (t : Nat)
    (h : ∀ d, findBySession st sid = some d → d.status ≠ .running) :
    handleSessionIdle env st sid r meta t = st := by
  cases hf : findBySession st sid with
  | none => simp [handleSessionIdle, hf]
  | some d => simp [handleSessionIdle, hf, h d hf]

theorem handleTimeout_noop (env : Env) (st : ManagerState)
    (idv r : String) (t : Nat)
    (h : ∀ d, mapGet st.delegations idv = some d → d.status ≠ .running) :
    handleTimeout env st idv r t = st := by
  cases hf : mapGet st.delegations idv with
  | none => simp [handleTimeout, hf]
  | some d => simp [handleTimeout, hf, h d hf]

theorem handleSessionIdle_acts (env : Env) (st : ManagerState)
    (sid r : String) (meta : GeneratedMetadata) (t : Nat) (d : Delegation)
    (hf : findBySession st sid = some d) (hrun : d.status = .running) :
    handleSessionIdle env st sid r meta t =
      notifyParent (persistOutput env
        { st with delegations := mapSet st.delegations (completedOf d meta t) }
        (completedOf d meta t) r) (completedOf d meta t) := by
  simp [handleSessionIdle, hf, hrun]

theorem handleTimeout_acts (env : Env) (st : ManagerState)
    (idv r : String) (t : Nat) (d : Delegation)
    (hf : mapGet st.delegations idv = some d) (hrun : d.status = .running) :
    handleTimeout env st idv r t =
      notifyParent (persistOutput env
        { st with delegations := mapSet st.delegations (timedOutOf d t) }
        (timedOutOf d t) (r ++ "\n\n[TIMEOUT REACHED]")) (timedOutOf d t) := by
  simp [handleTimeout, hf, hrun]

theorem alGet_none_filter {κ α : Type} [DecidableEq κ]
    (l : List (κ × α)) (k : κ) (h : alGet l k = none) :
    l.filter (fun e => decide (e.1 = k)) = [] := by
  induction l with
  | nil => rfl
  | cons e rest ih =>
    simp only [alGet] at h
    by_cases he : e.1 = k
    · rw [if_pos he] at h
      cases h
    · rw [if_neg he] at h
      simp only [List.filter_cons]
      rw [if_neg (by simpa using he)]
      exact ih h

theorem filter_alSet_of_absent {κ α : Type} [DecidableEq κ]
    (l : List (κ × α)) (k : κ) (v : α)
    (h : l.filter (fun e => decide (e.1 = k)) = []) :
    (alSet l k v).filter (fun e => decide (e.1 = k)) = [(k, v)] := by
  induction l with
  | nil => simp [alSet]
  | cons e rest ih =>
    simp only [List.filter_cons] at h
    by_cases he : e.1 = k
    · rw [if_pos (by simpa using he)] at h
      cases h
    · rw [if_neg (by simpa using he)] at h
      simp only [alSet]
      rw [if_neg he]
      simp only [List.filter_cons]
      rw [if_neg (by simpa using he)]
      exact ih h

theorem store_filter_eq_nil_of_recordCount_zero (st : ManagerState)
    (k : String × String) (h : recordCount st k = 0) :
    st.store.filter (fun e => decide (e.1 = k)) = [] :=
  List.length_eq_zero.mp h

/-- Claim C3: invoking the completion-signal handler or the timeout
handler a second time for the same delegation is a no-op - the composed
call equals the single call, so neither the registry, the pending sets,
the store, nor the notification stream changes; and the first (acting)
invocation sends exactly one notification and writes exactly one
persisted record for that delegation. -/
theorem C3_handlers_idempotent (env : Env) (st : ManagerState)
    (sid idv r r' : String) (meta meta' : GeneratedMetadata) (t t' : Nat)
    (hnd : (st.delegations.map (fun x => x.id)).Nodup) :
    handleSessionIdle env (handleSessionIdle env st sid r meta t) sid r' meta' t' =
      handleSessionIdle env st sid r meta t ∧
    handleTimeout env (handleTimeout env st idv r t) idv r' t' =
      handleTimeout env st idv r t ∧
    (∀ d, findBySession st sid = some d → d.status = .running →
      (handleSessionIdle env st sid r meta t).notes.length = st.notes.length + 1 ∧
      (recordCount st (recordKey env d.parentSessionID d.id) = 0 →
        recordCount (handleSessionIdle env st sid r meta t)
          (recordKey env d.parentSessionID d.id) = 1)) ∧
    (∀ d, mapGet st.delegations idv = some d → d.status = .running →
      (handleTimeout env st idv r t).notes.length = st.notes.length + 1 ∧
      (recordCount st (recordKey env d.parentSessionID d.id) = 0 →
        recordCount (handleTimeout env st idv r t)
          (recordKey env d.parentSessionID d.id) = 1)) := by
  refine ⟨?_, ?_, ?_, ?_⟩
  · cases hf : findBySession st sid with
    | none =>
      have hno : ∀ u, findBySession st sid = some u → u.status ≠ .running := by
        intro u hu; rw [hf] at hu; cases hu
      rw [handleSessionIdle_noop env st sid r meta t hno,
        handleSessionIdle_noop env st sid r' meta' t' hno]
    | some d =>
      by_cases hrun : d.status = .running
      · rw [handleSessionIdle_acts env st sid r meta t d hf hrun]
        apply handleSessionIdle_noop
        intro u hu
        have hfind := find_sessionID_mapSet st.delegations sid d
          (completedOf d meta t) hnd hf rfl rfl
        have : some u = some (completedOf d meta t) := by
          rw [← hu]; exact hfind
        injection this with this
        subst this
        intro hcontra
        exact absurd hcontra (by simp [completedOf])
      · have hno : ∀ u, findBySession st sid = some u → u.status ≠ .running := by
          intro u hu
          rw [hf] at hu
          injection hu with hu
          subst hu
          exact hrun
        rw [handleSessionIdle_noop env st sid r meta t hno,
          handleSessionIdle_noop env st sid r' meta' t' hno]
  · cases hf : mapGet st.delegations idv with
    | none =>
      have hno : ∀ u, mapGet st.delegations idv = some u → u.status ≠ .running := by
        intro u hu; rw [hf] at hu; cases hu
      rw [handleTimeout_noop env st idv r t hno,
        handleTimeout_noop env st idv r' t' hno]
    | some d =>
      by_cases hrun : d.status = .running
      · rw [handleTimeout_acts env st idv r t d hf hrun]
        apply handleTimeout_noop
        intro u hu
        have hfind := mapGet_mapSet_of_key st.delegations idv d
          (timedOutOf d t) hf
          (show (timedOutOf d t).id = idv from mapGet_id st.delegations idv d hf)
        have : some u = some (timedOutOf d t) := by
          rw [← hu]; exact hfind
        injection this with this
        subst this
        intro hcontra
        exact absurd hcontra (by simp [timedOutOf])
      · have hno : ∀ u, mapGet st.delegations idv = some u → u.status ≠ .running := by
          intro u hu
          rw [hf] at hu
          injection hu with hu
          subst hu
          exact hrun
        rw [handleTimeout_noop env st idv r t hno,
          handleTimeout_noop env st idv r' t' hno]
  · intro d hf hrun
    rw [handleSessionIdle_acts env st sid r meta t d hf hrun]
    constructor
    · simp [notifyParent, persistOutput]
    · intro hzero
      have hnil := store_filter_eq_nil_of_recordCount_zero st _ hzero
      show ((alSet st.store (recordKey env d.parentSessionID d.id) _).filter
        (fun e => decide (e.1 = recordKey env d.parentSessionID d.id))).length = 1
      rw [filter_alSet_of_absent _ _ _ hnil]
      rfl
  · intro d hf hrun
    rw [handleTimeout_acts env st idv r t d hf hrun]
    constructor
    · simp [notifyParent, persistOutput]
    · intro hzero
      have hnil := store_filter_eq_nil_of_recordCount_zero st _ hzero
      show ((alSet st.store (recordKey env d.parentSessionID d.id) _).filter
        (fun e => decide (e.1 = recordKey env d.parentSessionID d.id))).length = 1
      rw [filter_alSet_of_absent _ _ _ hnil]
      rfl

/-- Claim C3 witness: a concrete running delegation; the second idle
signal leaves the state of the first unchanged. -/
theorem C3_handlers_idempotent_witness :
    handleSessionIdle envNone
      (handleSessionIdle envNone oneRunningState "s1" "res" ⟨"T", "D"⟩ 1)
      "s1" "res2" ⟨"T2", "D2"⟩ 2 =
    handleSessionIdle envNone oneRunningState "s1" "res" ⟨"T", "D"⟩ 1 :=
  (C3_handlers_idempotent envNone oneRunningState "s1" "wise-jade-hare"
    "res" "res2" ⟨"T", "D"⟩ ⟨"T2", "D2"⟩ 1 2 (by decide)).1

-- ==========================================
-- Claims C9 and C10 (readOutput)
-- ==========================================

theorem waitLoop_le (statusAt : Nat → Status) :
    ∀ fuel k, k ≤ 310 → waitLoop statusAt fuel k ≤ 310 := by
  intro fuel
  induction fuel with
  | zero => intro k hk; simpa [waitLoop] using hk
  | succ f ih =>
    intro k hk
    simp only [waitLoop]
    split
    · next h =>
      refine ih (k + 1) ?_
      have := h.2
      simp only [pollInterval, MAX_RUN_TIME_MS] at this
      omega
    · exact hk

theorem waitPolls_le (statusAt : Nat → Status) : waitPolls statusAt ≤ 310 :=
  waitLoop_le statusAt 311 0 (by omega)

/-- Claim C9: a `readOutput` call that finds no record and a running
delegation suspends by fixed-interval polling only: the time it sleeps is
`pollInterval` times the poll count, bounded by the global timeout plus
slack (`MAX_RUN_TIME_MS + 10000` ms), so it never suspends forever; and
provided the delegation has left `running` by the time the wait returns
(the timer armed at submission forces this within `MAX_RUN_TIME_MS +
5000` ms) or the record has been persisted, the call returns a value -
the persisted record or the synthesized terminal-status message. -/
theorem C9_read_wait_bounded (env : Env) (stC stA : ManagerState)
    (statusAt : Nat → Status) (sid idv : String) (d : Delegation)
    (hnofile : alGet stC.store (rootOf env sid, idv) = none)
    (hfound : mapGet stC.delegations idv = some d)
    (hrun : d.status = .running)
    (hafter : (∃ u, mapGet stA.delegations idv = some u ∧ u.status ≠ .running) ∨
      (∃ c, alGet stA.store (rootOf env sid, idv) = some c)) :
    (readOutput env stC stA statusAt sid idv).1 =
      pollInterval * waitPolls statusAt ∧
    (readOutput env stC stA statusAt sid idv).1 ≤ MAX_RUN_TIME_MS + 10000 ∧
    ∃ out, (readOutput env stC stA statusAt sid idv).2 = .ok out := by
  have hbound : pollInterval * waitPolls statusAt ≤ MAX_RUN_TIME_MS + 10000 := by
    have := waitPolls_le statusAt
    simp only [pollInterval, MAX_RUN_TIME_MS]
    omega
  have hout : ∃ out, readOutput env stC stA statusAt sid idv =
      (pollInterval * waitPolls statusAt, Except.ok out) := by
    simp only [readOutput, hnofile, hfound, hrun, if_true]
    cases hsA : alGet stA.store (rootOf env sid, idv) with
    | some c => exact ⟨c, rfl⟩
    | none =>
      rcases hafter with ⟨u, hu, hs⟩ | ⟨c, hc⟩
      · simp only [hu, hs, ne_eq, not_false_iff, if_true]
        exact ⟨endedMsg u, rfl⟩
      · rw [hsA] at hc
        cases hc
  obtain ⟨out, hout⟩ := hout
  rw [hout]
  exact ⟨rfl, hbound, out, rfl⟩

/-- Claim C9 witness: a running delegation whose wait observes immediate
completion; the call returns the persisted record after a bounded wait. -/
theorem C9_read_wait_bounded_witness :
    (readOutput envNone oneRunningState oneCompleteState
      (fun _ => Status.complete) "p1" "wise-jade-hare").1 =
      pollInterval * waitPolls (fun _ => Status.complete) ∧
    (readOutput envNone oneRunningState oneCompleteState
      (fun _ => Status.complete) "p1" "wise-jade-hare").1 ≤
      MAX_RUN_TIME_MS + 10000 ∧
    ∃ out, (readOutput envNone oneRunningState oneCompleteState
      (fun _ => Status.complete) "p1" "wise-jade-hare").2 = .ok out :=
  C9_read_wait_bounded envNone oneRunningState oneCompleteState
    (fun _ => Status.complete) "p1" "wise-jade-hare"
    { id := "wise-jade-hare", sessionID := "s1", parentSessionID := "p1",
      parentMessageID := "m1", parentAgent := "build", prompt := "investigate",
      agent := "general", status := .running, startedAt := 0,
      completedAt := none, error := none, title := none, description := none }
    (by decide) (by decide) (by decide)
    (.inr ⟨(oneCompleteState.store.headI).2, by decide⟩)

/-- Claim C10: when the id is a registry key but the delegation is
already terminal and no persisted record exists, `readOutput` raises the
not-found error without suspending - it does not synthesize the
terminal-status message, which is reachable only through the wait path
entered on a still-running delegation. -/
theorem C10_terminal_without_record_not_found (env : Env)
    (stC stA : ManagerState) (statusAt : Nat → Status) (sid idv : String)
    (d : Delegation)
    (hnofile : alGet stC.store (rootOf env sid, idv) = none)
    (hfound : mapGet stC.delegations idv = some d)
    (hterm : d.status ≠ .running) :
    readOutput env stC stA statusAt sid idv = (0, .error (notFoundMsg idv)) := by
  simp only [readOutput, hnofile, hfound]
  rw [if_neg hterm]

-- ==========================================
-- Claim C4 (persistence before notification) and the C5 witness
-- ==========================================

/-- Claim C5 witness: a concrete successful submission from a fresh
manager. -/
theorem C5_submit_registers_running_pending_witness :
    mapGet (delegate envNone initState inputP1 (fun _ => "id-w")
      (some "sW") 0).1.delegations dW.id = some dW ∧
    dW.status = .running ∧
    dW.id ∈ (alGet (delegate envNone initState inputP1 (fun _ => "id-w")
      (some "sW") 0).1.pendingByParent inputP1.parentSessionID).getD [] :=
  C5_submit_registers_running_pending envNone initState
    (delegate envNone initState inputP1 (fun _ => "id-w") (some "sW") 0).1
    inputP1 (fun _ => "id-w") (some "sW") 0 dW rfl

theorem okLogAux_append_pn (i : String) (b : Bool) :
    ∀ (l : List Effect) (ps : List String), okLogAux ps l = true →
      okLogAux ps (l ++ [.persist i, .notify i b]) = true := by
  intro l
  induction l with
  | nil =>
    intro ps _
    simp [okLogAux]
  | cons e rest ih =>
    intro ps h
    cases e with
    | persist j =>
      simp only [okLogAux] at h
      simp only [List.cons_append, okLogAux]
      exact ih _ h
    | notify j bb =>
      simp only [okLogAux, Bool.and_eq_true] at h
      simp only [List.cons_append, okLogAux, Bool.and_eq_true]
      exact ⟨h.1, ih _ h.2⟩

theorem delegate_log (env : Env) (st : ManagerState) (input : DelegateInput)
    (gen : Nat → String) (sc : Option String) (now : Nat) :
    (delegate env st input gen sc now).1.log = st.log := by
  by_cases hb : hasId st (allocLoop (hasId st) gen 10 (gen 0) 1) = true
  · simp [delegate, hb]
  · cases sc <;> simp [delegate, hb]

theorem deleteDelegation_log (env : Env) (st : ManagerState)
    (sid idv : String) (now : Nat) :
    (deleteDelegation env st sid idv now).1.log = st.log := by
  unfold deleteDelegation
  split <;>
    · cases halg : alGet st.store (rootOf env sid, idv) <;> simp [halg]

theorem step_log_shape (env : Env) (st : ManagerState) (op : Op)
    (hop : opIsDispatchFail op = false) :
    (step env st op).log = st.log ∨
    ∃ i b, (step env st op).log = st.log ++ [.persist i, .notify i b] := by
  cases op with
  | submit input gen sc now => exact .inl (delegate_log env st input gen sc now)
  | idle sid r meta now =>
    cases hf : findBySession st sid with
    | none => exact .inl (by simp [step, handleSessionIdle, hf])
    | some d =>
      by_cases hrun : d.status = .running
      · refine .inr ⟨(completedOf d meta now).id,
          allCompleteB st.pendingByParent (completedOf d meta now), ?_⟩
        show (handleSessionIdle env st sid r meta now).log = _
        rw [handleSessionIdle_acts env st sid r meta now d hf hrun]
        simp [notifyParent, persistOutput, completedOf]
      · exact .inl (by simp [step, handleSessionIdle, hf, hrun])
  | timeoutFire idv r now =>
    cases hf : mapGet st.delegations idv with
    | none => exact .inl (by simp [step, handleTimeout, hf])
    | some d =>
      by_cases hrun : d.status = .running
      · refine .inr ⟨(timedOutOf d now).id,
          allCompleteB st.pendingByParent (timedOutOf d now), ?_⟩
        show (handleTimeout env st idv r now).log = _
        rw [handleTimeout_acts env st idv r now d hf hrun]
        simp [notifyParent, persistOutput, timedOutOf]
      · exact .inl (by simp [step, handleTimeout, hf, hrun])
  | dispatchFail idv msg now pf => cases hop
  | del sid idv now => exact .inl (deleteDelegation_log env st sid idv now)

theorem run_okLog (env : Env) :
    ∀ (ops : List Op) (st : ManagerState), okLog st.log = true →
      (∀ op ∈ ops, opIsDispatchFail op = false) →
      okLog (run env st ops).log = true := by
  intro ops
  induction ops with
  | nil => intro st h _; exact h
  | cons op rest ih =>
    intro st h hops
    have hop : opIsDispatchFail op = false := hops op (List.mem_cons_self _ _)
    have hstep : okLog (step env st op).log = true := by
      rcases step_log_shape env st op hop with heq | ⟨i, b, heq⟩
      · rw [heq]; exact h
      · rw [heq]; exact okLogAux_append_pn i b _ _ h
    exact ih (step env st op) hstep (fun o ho => hops o (List.mem_cons_of_mem _ ho))

/-- Claim C4 (amended): in every run from a fresh manager whose events
contain no asynchronous dispatch rejection - that is, on the completion
and timeout terminal paths - every notification effect is preceded in
the effect log by the persist effect of the same delegation's record:
persistence completes strictly before the notification is sent.  (The
dispatch-failure path violates this; see the counterexample.) -/
theorem C4_persist_precedes_notify (env : Env) (ops : List Op)
    (hops : ∀ op ∈ ops, opIsDispatchFail op = false) :
    okLog (run env initState ops).log = true :=
  run_okLog env ops initState rfl hops

/-- Claim C4 witness: a submission followed by its completion; the log
satisfies persistence-before-notification. -/
theorem C4_persist_precedes_notify_witness :
    okLog (run envNone initState
      [ .submit inputP1 (fun _ => "w4") (some "s4") 0,
        .idle "s4" "done" ⟨"T", "D"⟩ 1 ]).log = true :=
  C4_persist_precedes_notify envNone
    [ .submit inputP1 (fun _ => "w4") (some "s4") 0,
      .idle "s4" "done" ⟨"T", "D"⟩ 1 ]
    (by
      intro op hop
      rw [List.mem_cons, List.mem_singleton] at hop
      rcases hop with h | h <;> subst h <;> rfl)

-- ==========================================
-- Claim C1: batch machinery
-- ==========================================

theorem mkDone_id (P pm pa : String) (it : BatchItem) :
    (mkDone P pm pa it).id = it.id := by
  cases hk : it.kind <;>
    simp [mkDone, hk, completedOf, timedOutOf, erroredOf, mkRunning]

theorem mkDone_sessionID (P pm pa : String) (it : BatchItem) :
    (mkDone P pm pa it).sessionID = it.sessionID := by
  cases hk : it.kind <;>
    simp [mkDone, hk, completedOf, timedOutOf, erroredOf, mkRunning]

theorem mkDone_parent (P pm pa : String) (it : BatchItem) :
    (mkDone P pm pa it).parentSessionID = P := by
  cases hk : it.kind <;>
    simp [mkDone, hk, completedOf, timedOutOf, erroredOf, mkRunning]

theorem mkDone_parentAgent (P pm pa : String) (it : BatchItem) :
    (mkDone P pm pa it).parentAgent = pa := by
  cases hk : it.kind <;>
    simp [mkDone, hk, completedOf, timedOutOf, erroredOf, mkRunning]

theorem mkDone_status (P pm pa : String) (it : BatchItem) :
    (mkDone P pm pa it).status = termStatus it.kind := by
  cases hk : it.kind <;>
    simp [mkDone, hk, termStatus, completedOf, timedOutOf, erroredOf, mkRunning]

theorem notifiedTerminalB_termStatus (k : TermKind) :
    notifiedTerminalB (termStatus k) = true := by
  cases k <;> rfl

theorem stepFun_id (P pm pa : String) (ds : List String) (it : BatchItem) :
    (stepFun P pm pa ds it).id = it.id := by
  unfold stepFun
  split
  · exact mkDone_id P pm pa it
  · rfl

theorem stepFun_sessionID (P pm pa : String) (ds : List String) (it : BatchItem) :
    (stepFun P pm pa ds it).sessionID = it.sessionID := by
  unfold stepFun
  split
  · exact mkDone_sessionID P pm pa it
  · rfl

theorem stepFun_parent (P pm pa : String) (ds : List String) (it : BatchItem) :
    (stepFun P pm pa ds it).parentSessionID = P := by
  unfold stepFun
  split
  · exact mkDone_parent P pm pa it
  · rfl

theorem stepFun_of_mem (P pm pa : String) (ds : List String) (it : BatchItem)
    (h : it.id ∈ ds) : stepFun P pm pa ds it = mkDone P pm pa it := by
  unfold stepFun
  rw [if_pos h]

theorem stepFun_of_not_mem (P pm pa : String) (ds : List String) (it : BatchItem)
    (h : it.id ∉ ds) : stepFun P pm pa ds it = mkRunning P pm pa it := by
  unfold stepFun
  rw [if_neg h]

theorem stepFun_congr_of_ne (P pm pa : String) (ds : List String) (x : String)
    (y : BatchItem) (h : y.id ≠ x) :
    stepFun P pm pa (ds ++ [x]) y = stepFun P pm pa ds y := by
  unfold stepFun
  by_cases hy : y.id ∈ ds
  · rw [if_pos (List.mem_append_left _ hy), if_pos hy]
  · rw [if_neg ?_, if_neg hy]
    simp [List.mem_append, hy, h]

theorem mapGet_mkRunning_none (P pm pa : String) (sub : List BatchItem)
    (x : String) (h : x ∉ sub.map (fun it => it.id)) :
    mapGet (sub.map (mkRunning P pm pa)) x = none := by
  induction sub with
  | nil => rfl
  | cons e rest ih =>
    simp only [List.map_cons, List.mem_cons, not_or] at h
    simp only [List.map_cons, mapGet]
    rw [if_neg ?_]
    · exact ih h.2
    · show ¬ (mkRunning P pm pa e).id = x
      simpa [mkRunning] using fun hh => h.1 hh.symm

theorem mapSet_fresh (l : List Delegation) (d : Delegation)
    (h : mapGet l d.id = none) : mapSet l d = l ++ [d] := by
  induction l with
  | nil => rfl
  | cons e rest ih =>
    simp only [mapGet] at h
    by_cases he : e.id = d.id
    · rw [if_pos he] at h
      cases h
    · rw [if_neg he] at h
      simp only [mapSet, List.cons_append]
      rw [if_neg he, ih h]

theorem alSet_append_of_get_none {κ α : Type} [DecidableEq κ]
    (l : List (κ × α)) (k : κ) (v : α) (h : alGet l k = none) :
    alSet l k v = l ++ [(k, v)] := by
  induction l with
  | nil => rfl
  | cons e rest ih =>
    simp only [alGet] at h
    by_cases he : e.1 = k
    · rw [if_pos he] at h
      cases h
    · rw [if_neg he] at h
      cases e with
      | mk k' v' =>
        simp only at he
        simp only [alSet, List.cons_append]
        rw [if_neg he, ih h]

theorem delegate_submitState (env : Env) (P pm pa : String)
    (sub : List BatchItem) (it : BatchItem)
    (hfresh : it.id ∉ sub.map (fun x => x.id)) :
    (delegate env (submitState P pm pa sub) (itemInput P pm pa it)
      (fun _ => it.id) (some it.sessionID) 0).1 =
      submitState P pm pa (sub ++ [it]) := by
  have hget : mapGet (submitState P pm pa sub).delegations it.id = none :=
    mapGet_mkRunning_none P pm pa sub it.id hfresh
  have hhas : hasId (submitState P pm pa sub) it.id = false := by
    simp [hasId, hget]
  have hloop : allocLoop (hasId (submitState P pm pa sub)) (fun _ => it.id) 10
      ((fun _ => it.id) 0) 1 = it.id := by
    simp [allocLoop, hhas]
  have hnew : newDelegation (itemInput P pm pa it) it.id it.sessionID 0 =
      mkRunning P pm pa it := rfl
  simp only [delegate, hloop, hhas, Bool.false_eq_true, if_false, hnew]
  have hdels : mapSet (submitState P pm pa sub).delegations (mkRunning P pm pa it) =
      (sub ++ [it]).map (mkRunning P pm pa) := by
    rw [mapSet_fresh _ _ (by rw [show (mkRunning P pm pa it).id = it.id from rfl]; exact hget)]
    simp [submitState]
  have hpend : pendingAdd (submitState P pm pa sub).pendingByParent P it.id =
      [(P, (sub ++ [it]).map (fun x => x.id))] := by
    cases sub with
    | nil => simp [submitState, pendingAdd, alGet, alSet, setAdd]
    | cons e rest =>
      simp only [List.map_cons, List.mem_cons, List.mem_map, not_or, not_exists,
        not_and] at hfresh
      simp [submitState, pendingAdd, alGet, alSet, setAdd, List.mem_map]
      exact ⟨hfresh.1, hfresh.2⟩
  show ({ submitState P pm pa sub with
      delegations := mapSet (submitState P pm pa sub).delegations (mkRunning P pm pa it),
      pendingByParent :=
        pendingAdd (submitState P pm pa sub).pendingByParent P it.id } : ManagerState) =
    submitState P pm pa (sub ++ [it])
  rw [hdels, hpend]
  simp [submitState]

theorem submitAll_submitState (env : Env) (P pm pa : String) :
    ∀ (rest sub : List BatchItem),
      ((sub ++ rest).map (fun it => it.id)).Nodup →
      submitAll env P pm pa rest (submitState P pm pa sub) =
        submitState P pm pa (sub ++ rest) := by
  intro rest
  induction rest with
  | nil => intro sub _; simp [submitAll]
  | cons it rest' ih =>
    intro sub h
    have hfresh : it.id ∉ sub.map (fun x => x.id) := by
      rw [List.map_append, List.nodup_append] at h
      intro hmem
      exact h.2.2 hmem (by simp)
    simp only [submitAll]
    rw [delegate_submitState env P pm pa sub it hfresh]
    have := ih (sub ++ [it]) (by simpa using h)
    rw [List.append_assoc] at this
    simpa using this

theorem find_by_key_eq (f : BatchItem → String) (items : List BatchItem)
    (it : BatchItem) (hmem : it ∈ items) (hnd : (items.map f).Nodup) :
    items.find? (fun x => decide (f x = f it)) = some it := by
  induction items with
  | nil => cases hmem
  | cons e rest ih =>
    rw [List.map_cons, List.nodup_cons] at hnd
    rcases List.mem_cons.mp hmem with he | he
    · subst he
      exact List.find?_cons_of_pos _ (by simp)
    · by_cases hfe : f e = f it
      · exact absurd (hfe ▸ List.mem_map_of_mem f he) hnd.1
      · rw [List.find?_cons_of_neg _ (by simpa using hfe)]
        exact ih he hnd.2

theorem mapGet_map_stepFun (P pm pa : String) (ds : List String)
    (items : List BatchItem) (x : String) :
    mapGet (items.map (stepFun P pm pa ds)) x =
      (items.find? (fun it => decide (it.id = x))).map (stepFun P pm pa ds) := by
  induction items with
  | nil => rfl
  | cons e rest ih =>
    simp only [List.map_cons, mapGet]
    by_cases he : e.id = x
    · rw [if_pos (by rw [stepFun_id]; exact he),
        List.find?_cons_of_pos _ (by simpa using he)]
      rfl
    · rw [if_neg (by rw [stepFun_id]; exact he),
        List.find?_cons_of_neg _ (by simpa using he)]
      exact ih

theorem find_sessionID_map_stepFun (P pm pa : String) (ds : List String)
    (items : List BatchItem) (sid : String) :
    (items.map (stepFun P pm pa ds)).find? (fun x => decide (x.sessionID = sid)) =
      (items.find? (fun it => decide (it.sessionID = sid))).map
        (stepFun P pm pa ds) := by
  induction items with
  | nil => rfl
  | cons e rest ih =>
    simp only [List.map_cons]
    by_cases he : e.sessionID = sid
    · rw [List.find?_cons_of_pos _ (by simp [stepFun_sessionID, he]),
        List.find?_cons_of_pos _ (by simpa using he)]
      rfl
    · rw [List.find?_cons_of_neg _ (by simp [stepFun_sessionID, he]),
        List.find?_cons_of_neg _ (by simpa using he)]
      exact ih

theorem mapSet_map_stepFun (P pm pa : String) (ds : List String)
    (it : BatchItem) :
    ∀ (items : List BatchItem), it ∈ items →
      (items.map (fun x => x.id)).Nodup →
      mapSet (items.map (stepFun P pm pa ds)) (mkDone P pm pa it) =
        items.map (stepFun P pm pa (ds ++ [it.id])) := by
  intro items
  induction items with
  | nil => intro h; cases h
  | cons e rest ih =>
    intro hmem hnd
    rw [List.map_cons, List.nodup_cons] at hnd
    rcases List.mem_cons.mp hmem with he | he
    · rw [← he]
      simp only [List.map_cons, mapSet]
      rw [if_pos (by rw [stepFun_id, mkDone_id])]
      have hhead : mkDone P pm pa it = stepFun P pm pa (ds ++ [it.id]) it := by
        rw [stepFun_of_mem P pm pa _ it (by simp)]
      have htail : rest.map (stepFun P pm pa ds) =
          rest.map (stepFun P pm pa (ds ++ [it.id])) := by
        apply List.map_congr_left
        intro y hy
        have hyne : y.id ≠ it.id := by
          intro hc
          apply hnd.1
          rw [← he, ← hc]
          exact List.mem_map_of_mem _ hy
        exact (stepFun_congr_of_ne P pm pa ds it.id y hyne).symm
      rw [hhead, htail]
    · have hne : ¬ (stepFun P pm pa ds e).id = (mkDone P pm pa it).id := by
        rw [stepFun_id, mkDone_id]
        intro hc
        exact hnd.1 (hc ▸ List.mem_map_of_mem _ he)
      simp only [List.map_cons, mapSet]
      rw [if_neg hne]
      have hene : e.id ≠ it.id := by
        rw [stepFun_id, mkDone_id] at hne
        exact hne
      rw [ih he hnd.2, stepFun_congr_of_ne P pm pa ds it.id e hene]

theorem setErase_filter (ds : List String) (a : String) :
    ∀ (xs : List String), xs.Nodup →
      setErase (xs.filter (fun x => decide (x ∉ ds))) a =
        xs.filter (fun x => decide (x ∉ ds ++ [a])) := by
  intro xs
  induction xs with
  | nil => intro _; rfl
  | cons x rest ih =>
    intro hnd
    rw [List.nodup_cons] at hnd
    by_cases hx : x ∈ ds
    · rw [List.filter_cons_of_neg (by simpa using hx),
        List.filter_cons_of_neg (by simp [List.mem_append, hx])]
      exact ih hnd.2
    · by_cases hxa : x = a
      · subst hxa
        rw [List.filter_cons_of_pos (by simpa using hx)]
        simp only [setErase, if_pos rfl]
        rw [List.filter_cons_of_neg (by simp)]
        apply List.filter_congr
        intro y hy
        have hyx : y ≠ x := fun hc => hnd.1 (hc ▸ hy)
        simp [List.mem_append, hyx]
      · rw [List.filter_cons_of_pos (by simpa using hx)]
        simp only [setErase]
        rw [if_neg hxa]
        rw [List.filter_cons_of_pos (by simp [List.mem_append, hx, hxa])]
        rw [ih hnd.2]

theorem length_filter_not_mem (xs ds : List String)
    (hxs : xs.Nodup) (hds : ds.Nodup) (hsub : ∀ a ∈ ds, a ∈ xs) :
    (xs.filter (fun x => decide (x ∉ ds))).length + ds.length = xs.length := by
  have hperm := List.filter_append_perm (fun x => decide (x ∈ ds)) xs
  have hlen : (xs.filter (fun x => decide (x ∈ ds))).length +
      (xs.filter (fun x => !(decide (x ∈ ds)))).length = xs.length := by
    have := hperm.length_eq
    simpa [List.length_append] using this
  have heq : List.Perm (xs.filter (fun x => decide (x ∈ ds))) ds := by
    rw [List.perm_ext_iff_of_nodup (hxs.filter _) hds]
    intro a
    simp only [List.mem_filter, decide_eq_true_eq]
    exact ⟨fun h => h.2, fun h => ⟨hsub a h, h⟩⟩
  have hsame : xs.filter (fun x => decide (x ∉ ds)) =
      xs.filter (fun x => !(decide (x ∈ ds))) := by
    apply List.filter_congr
    intro a _
    simp
  rw [hsame]
  have := heq.length_eq
  omega

theorem alGet_store_done_none (env : Env) (P pm pa : String)
    (done : List BatchItem) (x : String)
    (h : x ∉ done.map (fun y => y.id)) :
    alGet (done.map (fun y => ((rootOf env P, y.id), doneContent P pm pa y)))
      (rootOf env P, x) = none := by
  induction done with
  | nil => rfl
  | cons e rest ih =>
    simp only [List.map_cons, List.mem_cons, not_or] at h
    simp only [List.map_cons, alGet]
    rw [if_neg ?_]
    · exact ih h.2
    · intro hc
      exact h.1 (congrArg Prod.snd hc).symm

theorem buildNotesAux_append (P pa : String) (items : List BatchItem) :
    ∀ (done : List BatchItem) (j : Nat) (it : BatchItem),
      buildNotesAux P pa items j (done ++ [it]) =
        buildNotesAux P pa items j done ++
          [noteAt P pa items (j + done.length) it] := by
  intro done
  induction done with
  | nil => intro j it; simp [buildNotesAux]
  | cons e rest ih =>
    intro j it
    simp only [List.cons_append, buildNotesAux, List.append_eq]
    rw [ih (j + 1)]
    have harith : j + 1 + rest.length = j + (e :: rest).length := by
      simp [List.length_cons]
      omega
    rw [harith]

theorem buildLogAux_append (items : List BatchItem) :
    ∀ (done : List BatchItem) (j : Nat) (it : BatchItem),
      buildLogAux items j (done ++ [it]) =
        buildLogAux items j done ++
          [.persist it.id,
           .notify it.id (decide (j + done.length + 1 = items.length))] := by
  intro done
  induction done with
  | nil => intro j it; simp [buildLogAux]
  | cons e rest ih =>
    intro j it
    simp only [List.cons_append, buildLogAux, List.append_eq]
    rw [ih (j + 1)]
    have harith : j + 1 + rest.length = j + (e :: rest).length := by
      simp [List.length_cons]
      omega
    rw [harith]

set_option maxHeartbeats 1600000 in
theorem finalize_mid (env : Env) (P pm pa : String)
    (items done : List BatchItem) (it : BatchItem) (content : String)
    (hcontent : buildHeader (mkDone P pm pa it) ++ content =
      doneContent P pm pa it)
    (hids : (items.map (fun x => x.id)).Nodup)
    (hdsub : ∀ y ∈ done, y ∈ items)
    (hdnd : (done.map (fun x => x.id)).Nodup)
    (hmem : it ∈ items)
    (hnotin : it.id ∉ done.map (fun x => x.id)) :
    notifyParent
      (persistOutput env
        { midState env P pm pa items done with
          delegations :=
            mapSet (midState env P pm pa items done).delegations
              (mkDone P pm pa it) }
        (mkDone P pm pa it) content)
      (mkDone P pm pa it) =
    midState env P pm pa items (done ++ [it]) := by
  have hnd' : ((done ++ [it]).map (fun x => x.id)).Nodup := by
    rw [List.map_append, List.nodup_append]
    refine ⟨hdnd, List.nodup_singleton _, ?_⟩
    intro a ha hb
    simp only [List.map_cons, List.map_nil, List.mem_singleton] at hb
    subst hb
    exact hnotin ha
  have hsub' : ∀ a ∈ (done ++ [it]).map (fun x => x.id),
      a ∈ items.map (fun x => x.id) := by
    intro a ha
    rw [List.map_append, List.mem_append] at ha
    rcases ha with ha | ha
    · obtain ⟨y, hy, rfl⟩ := List.mem_map.mp ha
      exact List.mem_map_of_mem _ (hdsub y hy)
    · simp only [List.map_cons, List.map_nil, List.mem_singleton] at ha
      subst ha
      exact List.mem_map_of_mem _ hmem
  have hmapapp : (done ++ [it]).map (fun x => x.id) =
      done.map (fun x => x.id) ++ [it.id] := by simp
  have hcount := length_filter_not_mem (items.map (fun x => x.id))
    ((done ++ [it]).map (fun x => x.id)) hids hnd' hsub'
  rw [hmapapp] at hcount
  have hlens : ((done ++ [it]).map (fun x => x.id)).length = done.length + 1 := by
    simp
  rw [hmapapp] at hlens
  have hit_rem : it.id ∈ (items.map (fun x => x.id)).filter
      (fun x => decide (x ∉ done.map (fun x => x.id))) :=
    List.mem_filter.mpr ⟨List.mem_map_of_mem _ hmem, by simpa using hnotin⟩
  have herase : setErase ((items.map (fun x => x.id)).filter
        (fun x => decide (x ∉ done.map (fun x => x.id)))) it.id =
      (items.map (fun x => x.id)).filter
        (fun x => decide (x ∉ done.map (fun x => x.id) ++ [it.id])) :=
    setErase_filter (done.map (fun x => x.id)) it.id
      (items.map (fun x => x.id)) hids
  have hdel1 : mapSet
      (items.map (stepFun P pm pa (done.map (fun x => x.id))))
      (mkDone P pm pa it) =
      items.map (stepFun P pm pa (done.map (fun x => x.id) ++ [it.id])) :=
    mapSet_map_stepFun P pm pa (done.map (fun x => x.id)) it items hmem hids
  have hstore1 : alSet
      (done.map (fun y => ((rootOf env P, y.id), doneContent P pm pa y)))
      (rootOf env P, it.id) (buildHeader (mkDone P pm pa it) ++ content) =
      (done ++ [it]).map
        (fun y => ((rootOf env P, y.id), doneContent P pm pa y)) := by
    rw [alSet_append_of_get_none _ _ _
      (alGet_store_done_none env P pm pa done it.id hnotin), hcontent]
    simp
  have hrem_ne : ((items.map (fun x => x.id)).filter
      (fun x => decide (x ∉ done.map (fun x => x.id)))).isEmpty = false := by
    cases hc : (items.map (fun x => x.id)).filter
        (fun x => decide (x ∉ done.map (fun x => x.id))) with
    | nil => rw [hc] at hit_rem; cases hit_rem
    | cons a l => rfl
  have hpmid : (midState env P pm pa items done).pendingByParent =
      [(P, (items.map (fun x => x.id)).filter
        (fun x => decide (x ∉ done.map (fun x => x.id))))] := by
    simp only [midState]
    rw [hrem_ne]
    simp
  have hpafter : pendingAfter (midState env P pm pa items done).pendingByParent
      (mkDone P pm pa it) =
      some ((items.map (fun x => x.id)).filter
        (fun x => decide (x ∉ done.map (fun x => x.id) ++ [it.id]))) := by
    rw [hpmid]
    simp only [pendingAfter, mkDone_parent, mkDone_id, alGet, eq_self_iff_true,
      if_true, Option.map_some']
    exact congrArg some herase
  have hacb : allCompleteB (midState env P pm pa items done).pendingByParent
      (mkDone P pm pa it) =
      ((items.map (fun x => x.id)).filter
        (fun x => decide (x ∉ done.map (fun x => x.id) ++ [it.id]))).isEmpty := by
    simp only [allCompleteB, hpafter]
  have hrematch : remainingAfter (midState env P pm pa items done).pendingByParent
      (mkDone P pm pa it) =
      ((items.map (fun x => x.id)).filter
        (fun x => decide (x ∉ done.map (fun x => x.id) ++ [it.id]))).length := by
    simp only [remainingAfter, hpafter, Option.map_some', Option.getD_some]
  have hdelsL : (midState env P pm pa items done).delegations =
      items.map (stepFun P pm pa (done.map (fun x => x.id))) := by
    simp only [midState]
  have hdelsR : (midState env P pm pa items (done ++ [it])).delegations =
      items.map (stepFun P pm pa (done.map (fun x => x.id) ++ [it.id])) := by
    simp only [midState]
    rw [hmapapp]
  have hstoreL : (midState env P pm pa items done).store =
      done.map (fun y => ((rootOf env P, y.id), doneContent P pm pa y)) := by
    simp only [midState]
  have hstoreR : (midState env P pm pa items (done ++ [it])).store =
      (done ++ [it]).map
        (fun y => ((rootOf env P, y.id), doneContent P pm pa y)) := by
    simp only [midState]
  have hnotesL : (midState env P pm pa items done).notes =
      buildNotesAux P pa items 0 done := by
    simp only [midState]
  have hnotesR : (midState env P pm pa items (done ++ [it])).notes =
      buildNotesAux P pa items 0 done ++
        [noteAt P pa items done.length it] := by
    simp only [midState]
    rw [buildNotesAux_append]
    simp
  have hlogL : (midState env P pm pa items done).log =
      buildLogAux items 0 done := by
    simp only [midState]
  have hlogR : (midState env P pm pa items (done ++ [it])).log =
      buildLogAux items 0 done ++
        [.persist it.id,
         .notify it.id (decide (done.length + 1 = items.length))] := by
    simp only [midState]
    rw [buildLogAux_append]
    simp
  have hlenxs : (items.map (fun x => x.id)).length = items.length :=
    List.length_map _ _
  have hlendone : (done.map (fun x => x.id)).length = done.length :=
    List.length_map _ _
  rw [List.length_append] at hcount
  simp only [List.length_map, List.length_cons, List.length_nil] at hcount
  by_cases hlast : done.length + 1 = items.length
  · have hre0 : ((items.map (fun x => x.id)).filter
        (fun x => decide (x ∉ done.map (fun x => x.id) ++ [it.id]))).length = 0 := by
      omega
    have hre : (items.map (fun x => x.id)).filter
        (fun x => decide (x ∉ done.map (fun x => x.id) ++ [it.id])) = [] :=
      List.length_eq_zero.mp hre0
    have hreE : ((items.map (fun x => x.id)).filter
        (fun x => decide (x ∉ done.map (fun x => x.id) ++ [it.id]))).isEmpty
        = true := by rw [hre]; rfl
    have hall : ∀ y ∈ items, y.id ∈ done.map (fun x => x.id) ++ [it.id] := by
      intro y hy
      by_contra hc
      have hmemf : y.id ∈ (items.map (fun x => x.id)).filter
          (fun x => decide (x ∉ done.map (fun x => x.id) ++ [it.id])) :=
        List.mem_filter.mpr ⟨List.mem_map_of_mem _ hy, by simpa using hc⟩
      rw [hre] at hmemf
      cases hmemf
    have hfilter_all : (items.map (stepFun P pm pa
          (done.map (fun x => x.id) ++ [it.id]))).filter
        (fun d2 => d2.parentSessionID = P && notifiedTerminalB d2.status) =
        items.map (stepFun P pm pa (done.map (fun x => x.id) ++ [it.id])) := by
      rw [List.filter_eq_self]
      intro d2 hd2
      obtain ⟨y, hy, rfl⟩ := List.mem_map.mp hd2
      rw [stepFun_of_mem P pm pa _ y (hall y hy)]
      simp [mkDone_parent, mkDone_status, notifiedTerminalB_termStatus]
    have hids_map : (items.map (stepFun P pm pa
        (done.map (fun x => x.id) ++ [it.id]))).map (fun d2 => d2.id) =
        items.map (fun x => x.id) := by
      rw [List.map_map]
      apply List.map_congr_left
      intro y _
      exact stepFun_id P pm pa _ y
    have hne_items : items ≠ [] := List.ne_nil_of_mem hmem
    have henum : enumeratedIds
        (items.map (stepFun P pm pa (done.map (fun x => x.id) ++ [it.id])))
        (mkDone P pm pa it) = items.map (fun x => x.id) := by
      simp only [enumeratedIds, mkDone_parent]
      rw [hfilter_all, hids_map]
    have henum_ne : (enumeratedIds
        (items.map (stepFun P pm pa (done.map (fun x => x.id) ++ [it.id])))
        (mkDone P pm pa it)).isEmpty = false := by
      rw [henum]
      cases hitems : items with
      | nil => exact absurd hitems hne_items
      | cons a l => simp
    apply ManagerState_ext
    · show mapSet (midState env P pm pa items done).delegations
        (mkDone P pm pa it) = _
      rw [hdelsL, hdelsR, hdel1]
    · show pendingMapAfter (midState env P pm pa items done).pendingByParent
        (mkDone P pm pa it) = _
      simp only [pendingMapAfter, hpafter, hreE, if_true]
      rw [hpmid]
      simp only [mkDone_parent, alRemove, if_pos rfl]
      simp only [midState]
      rw [hmapapp, hre]
      simp
    · show alSet (midState env P pm pa items done).store
        (recordKey env (mkDone P pm pa it).parentSessionID
          (mkDone P pm pa it).id)
        (buildHeader (mkDone P pm pa it) ++ content) = _
      rw [hstoreL, hstoreR]
      simp only [recordKey, mkDone_parent, mkDone_id]
      exact hstore1
    · show (midState env P pm pa items done).notes ++
        [notifyNote (midState env P pm pa items done).pendingByParent
          (mapSet (midState env P pm pa items done).delegations
            (mkDone P pm pa it)) (mkDone P pm pa it)] = _
      rw [hnotesL, hnotesR]
      congr 1
      rw [hdelsL, hdel1]
      simp only [notifyNote, hacb, hreE, eq_self_iff_true, if_true, henum_ne,
        Bool.false_eq_true, if_false, noteAt, if_pos hlast,
        triggerNoteFor, hrematch, hre, List.length_nil, List.isEmpty_nil,
        mkDone_parent, mkDone_parentAgent]
      rw [henum]
    · show (midState env P pm pa items done).log ++ [.persist (mkDone P pm pa it).id] ++
        [.notify (mkDone P pm pa it).id
          (allCompleteB (midState env P pm pa items done).pendingByParent
            (mkDone P pm pa it))] = _
      rw [hlogL, hlogR]
      simp only [mkDone_id, hacb, hreE, List.append_assoc, List.cons_append,
        List.nil_append]
      have hdec : decide (done.length + 1 = items.length) = true := by
        simpa using hlast
      rw [hdec]
  · have hre0 : ((items.map (fun x => x.id)).filter
        (fun x => decide (x ∉ done.map (fun x => x.id) ++ [it.id]))).length ≠ 0 := by
      omega
    have hreE : ((items.map (fun x => x.id)).filter
        (fun x => decide (x ∉ done.map (fun x => x.id) ++ [it.id]))).isEmpty
        = false := by
      cases hc : (items.map (fun x => x.id)).filter
          (fun x => decide (x ∉ done.map (fun x => x.id) ++ [it.id])) with
      | nil => rw [hc] at hre0; simp at hre0
      | cons a l => rfl
    apply ManagerState_ext
    · show mapSet (midState env P pm pa items done).delegations
        (mkDone P pm pa it) = _
      rw [hdelsL, hdelsR, hdel1]
    · show pendingMapAfter (midState env P pm pa items done).pendingByParent
        (mkDone P pm pa it) = _
      simp only [pendingMapAfter, hpafter, hreE, Bool.false_eq_true, if_false]
      rw [hpmid]
      simp only [mkDone_parent, alSet, if_pos rfl]
      simp only [midState]
      rw [hmapapp, hreE]
      simp
    · show alSet (midState env P pm pa items done).store
        (recordKey env (mkDone P pm pa it).parentSessionID
          (mkDone P pm pa it).id)
        (buildHeader (mkDone P pm pa it) ++ content) = _
      rw [hstoreL, hstoreR]
      simp only [recordKey, mkDone_parent, mkDone_id]
      exact hstore1
    · show (midState env P pm pa items done).notes ++
        [notifyNote (midState env P pm pa items done).pendingByParent
          (mapSet (midState env P pm pa items done).delegations
            (mkDone P pm pa it)) (mkDone P pm pa it)] = _
      rw [hnotesL, hnotesR]
      congr 1
      simp only [notifyNote, hacb, hreE, Bool.false_eq_true, if_false,
        noteAt, if_neg hlast, silentNoteFor, hrematch, mkDone_parent,
        mkDone_parentAgent, mkDone_id]
      have homega : ((items.map (fun x => x.id)).filter
          (fun x => decide (x ∉ done.map (fun x => x.id) ++ [it.id]))).length =
          items.length - 1 - done.length := by omega
      rw [homega]
    · show (midState env P pm pa items done).log ++ [.persist (mkDone P pm pa it).id] ++
        [.notify (mkDone P pm pa it).id
          (allCompleteB (midState env P pm pa items done).pendingByParent
            (mkDone P pm pa it))] = _
      rw [hlogL, hlogR]
      simp only [mkDone_id, hacb, hreE, List.append_assoc, List.cons_append,
        List.nil_append]
      have hdec : decide (done.length + 1 = items.length) = false := by
        simpa using hlast
      rw [hdec]

theorem midState_delegations (env : Env) (P pm pa : String)
    (items done : List BatchItem) :
    (midState env P pm pa items done).delegations =
      items.map (stepFun P pm pa (done.map (fun x => x.id))) := by
  simp only [midState]

theorem midState_pending (env : Env) (P pm pa : String)
    (items done : List BatchItem) :
    (midState env P pm pa items done).pendingByParent =
      (if ((items.map (fun x => x.id)).filter
          (fun x => decide (x ∉ done.map (fun x => x.id)))).isEmpty
       then []
       else [(P, (items.map (fun x => x.id)).filter
          (fun x => decide (x ∉ done.map (fun x => x.id))))]) := by
  simp only [midState]

theorem midState_notes (env : Env) (P pm pa : String)
    (items done : List BatchItem) :
    (midState env P pm pa items done).notes = buildNotesAux P pa items 0 done := by
  simp only [midState]

theorem dispatchFailure_acts (env : Env) (st : ManagerState) (idv msg : String)
    (now : Nat) (d : Delegation) (hf : mapGet st.delegations idv = some d) :
    dispatchFailure env st idv msg now true =
      notifyParent (persistOutput env
        { st with delegations := mapSet st.delegations (erroredOf d msg now) }
        (erroredOf d msg now) ("Error: " ++ msg)) (erroredOf d msg now) := by
  simp [dispatchFailure, hf]

theorem applyTerm_mid (env : Env) (P pm pa : String)
    (items done : List BatchItem) (it : BatchItem)
    (hids : (items.map (fun x => x.id)).Nodup)
    (hsess : (items.map (fun x => x.sessionID)).Nodup)
    (hdsub : ∀ y ∈ done, y ∈ items)
    (hdnd : (done.map (fun x => x.id)).Nodup)
    (hmem : it ∈ items)
    (hnotin : it.id ∉ done.map (fun x => x.id)) :
    applyTerm env (midState env P pm pa items done) it =
      midState env P pm pa items (done ++ [it]) := by
  have hstep : stepFun P pm pa (done.map (fun x => x.id)) it =
      mkRunning P pm pa it :=
    stepFun_of_not_mem P pm pa _ it hnotin
  cases hk : it.kind with
  | idle =>
    have hfind : findBySession (midState env P pm pa items done) it.sessionID =
        some (mkRunning P pm pa it) := by
      unfold findBySession
      rw [midState_delegations, find_sessionID_map_stepFun,
        find_by_key_eq (fun x => x.sessionID) items it hmem hsess,
        Option.map_some', hstep]
    simp only [applyTerm, hk]
    rw [handleSessionIdle_acts env _ it.sessionID it.result it.meta 1
      (mkRunning P pm pa it) hfind rfl]
    have hmk : completedOf (mkRunning P pm pa it) it.meta 1 =
        mkDone P pm pa it := by
      simp [mkDone, hk]
    rw [hmk]
    exact finalize_mid env P pm pa items done it it.result
      (by simp [doneContent, rawContent, hk]) hids hdsub hdnd hmem hnotin
  | timedOut =>
    have hfind : mapGet (midState env P pm pa items done).delegations it.id =
        some (mkRunning P pm pa it) := by
      rw [midState_delegations, mapGet_map_stepFun,
        find_by_key_eq (fun x => x.id) items it hmem hids,
        Option.map_some', hstep]
    simp only [applyTerm, hk]
    rw [handleTimeout_acts env _ it.id it.result 1
      (mkRunning P pm pa it) hfind rfl]
    have hmk : timedOutOf (mkRunning P pm pa it) 1 = mkDone P pm pa it := by
      simp [mkDone, hk]
    rw [hmk]
    exact finalize_mid env P pm pa items done it
      (it.result ++ "\n\n[TIMEOUT REACHED]")
      (by simp [doneContent, rawContent, hk]) hids hdsub hdnd hmem hnotin
  | dispatchFail =>
    have hfind : mapGet (midState env P pm pa items done).delegations it.id =
        some (mkRunning P pm pa it) := by
      rw [midState_delegations, mapGet_map_stepFun,
        find_by_key_eq (fun x => x.id) items it hmem hids,
        Option.map_some', hstep]
    simp only [applyTerm, hk]
    rw [dispatchFailure_acts env _ it.id it.msg 1 (mkRunning P pm pa it) hfind]
    have hmk : erroredOf (mkRunning P pm pa it) it.msg 1 = mkDone P pm pa it := by
      simp [mkDone, hk]
    rw [hmk]
    exact finalize_mid env P pm pa items done it ("Error: " ++ it.msg)
      (by simp [doneContent, rawContent, hk]) hids hdsub hdnd hmem hnotin

theorem runTerms_mid (env : Env) (P pm pa : String) (items : List BatchItem)
    (hids : (items.map (fun x => x.id)).Nodup)
    (hsess : (items.map (fun x => x.sessionID)).Nodup) :
    ∀ (q done : List BatchItem), List.Perm (done ++ q) items →
      runTerms env q (midState env P pm pa items done) =
        midState env P pm pa items (done ++ q) := by
  intro q
  induction q with
  | nil => intro done _; simp [runTerms]
  | cons it rest ih =>
    intro done hperm
    have hmem : it ∈ items := hperm.subset (by simp)
    have hnd_all : ((done ++ it :: rest).map (fun x => x.id)).Nodup :=
      ((hperm.map (fun x => x.id)).nodup_iff).mpr hids
    have hdnd : (done.map (fun x => x.id)).Nodup := by
      rw [List.map_append] at hnd_all
      exact hnd_all.of_append_left
    have hnotin : it.id ∉ done.map (fun x => x.id) := by
      rw [List.map_append, List.nodup_append] at hnd_all
      intro hc
      exact hnd_all.2.2 hc (by simp)
    have hdsub : ∀ y ∈ done, y ∈ items := fun y hy =>
      hperm.subset (List.mem_append_left _ hy)
    simp only [runTerms]
    rw [applyTerm_mid env P pm pa items done it hids hsess hdsub hdnd hmem hnotin]
    have hrec := ih (done ++ [it]) (by simpa using hperm)
    rw [hrec]
    congr 1
    simp

theorem submitState_eq_mid (env : Env) (P pm pa : String)
    (items : List BatchItem) :
    submitState P pm pa items = midState env P pm pa items [] := by
  apply ManagerState_ext
  · show items.map (mkRunning P pm pa) = _
    rw [midState_delegations]
    apply List.map_congr_left
    intro y _
    exact (stepFun_of_not_mem P pm pa _ y (by simp)).symm
  · rw [midState_pending]
    have hfilt : (items.map (fun x => x.id)).filter
        (fun x => decide (x ∉ ([] : List BatchItem).map (fun x => x.id))) =
        items.map (fun x => x.id) := by
      apply List.filter_eq_self.mpr
      intro a _
      simp
    rw [hfilt]
    show (if items.isEmpty then [] else [(P, items.map (fun x => x.id))]) = _
    cases items <;> simp
  · rfl
  · rfl
  · rfl

theorem buildNotesAux_length (P pa : String) (items : List BatchItem) :
    ∀ (j : Nat) (q : List BatchItem),
      (buildNotesAux P pa items j q).length = q.length := by
  intro j q
  induction q generalizing j with
  | nil => rfl
  | cons it rest ih => simp [buildNotesAux, ih]

theorem buildNotesAux_split (P pa : String) (items : List BatchItem) :
    ∀ (q : List BatchItem) (j : Nat), j + q.length = items.length →
      0 < q.length →
      ∃ pre, buildNotesAux P pa items j q =
          pre ++ [triggerNoteFor P pa items] ∧
        (∀ n ∈ pre, n.noReply = true) ∧ pre.length = q.length - 1 := by
  intro q
  induction q with
  | nil => intro j _ h; cases h
  | cons it rest ih =>
    intro j hlen _
    cases rest with
    | nil =>
      refine ⟨[], ?_, by simp, by simp⟩
      simp only [buildNotesAux, noteAt, List.nil_append]
      rw [if_pos (by simpa using hlen)]
    | cons it2 rest2 =>
      have hne : j + 1 ≠ items.length := by
        simp only [List.length_cons] at hlen
        omega
      obtain ⟨pre, hpre, hsil, hlenp⟩ := ih (j + 1)
        (by simp only [List.length_cons] at hlen ⊢; omega) (by simp)
      refine ⟨noteAt P pa items j it :: pre, ?_, ?_, ?_⟩
      · have hstep : buildNotesAux P pa items j (it :: it2 :: rest2) =
            noteAt P pa items j it ::
              buildNotesAux P pa items (j + 1) (it2 :: rest2) := rfl
        rw [hstep, hpre]
        rfl
      · intro n hn
        rcases List.mem_cons.mp hn with hn | hn
        · subst hn
          simp only [noteAt, if_neg hne, silentNoteFor]
        · exact hsil n hn
      · simp only [List.length_cons] at hlenp ⊢
        omega

theorem buildNotesAux_remaining (P pa : String) (items : List BatchItem) :
    ∀ (q : List BatchItem) (j : Nat), j + q.length = items.length →
      (buildNotesAux P pa items j q).map (fun n => n.remaining) =
        (List.range q.length).map (fun i => items.length - 1 - (j + i)) := by
  intro q
  induction q with
  | nil => intro j _; rfl
  | cons it rest ih =>
    intro j hlen
    have hhead : (noteAt P pa items j it).remaining = items.length - 1 - j := by
      by_cases hj : j + 1 = items.length
      · simp only [noteAt, if_pos hj, triggerNoteFor]
        omega
      · simp only [noteAt, if_neg hj, silentNoteFor]
    simp only [buildNotesAux, List.map_cons, hhead]
    rw [ih (j + 1) (by simp only [List.length_cons] at hlen; omega)]
    simp only [List.length_cons, List.range_succ_eq_map, List.map_cons,
      List.map_map]
    congr 1
    apply List.map_congr_left
    intro i _
    simp only [Function.comp_apply, Function.comp]
    omega

/-- Claim C1 (amended): starting from a fresh engine, submit N
delegations under one owner scope and let each reach a terminal state via
complete, error or timeout (in any order, none cancelled).  Exactly one
triggering notification is delivered; it is the last notification, sent at
the final member's terminal transition; it enumerates exactly the N
submitted ids; and the silent notifications preceding it (N-1 of them)
each carry the count of still-pending siblings (N-1, N-2, ..., then 0 for
the trigger itself). -/
theorem C1_batch_single_trigger (env : Env) (P pm pa : String)
    (items q : List BatchItem)
    (hne : items ≠ [])
    (hids : (items.map (fun x => x.id)).Nodup)
    (hsess : (items.map (fun x => x.sessionID)).Nodup)
    (hperm : List.Perm q items) :
    (batchRun env P pm pa items q).notes.length = items.length ∧
    (batchRun env P pm pa items q).notes.filter (fun n => !n.noReply) =
      [triggerNoteFor P pa items] ∧
    (∃ pre, (batchRun env P pm pa items q).notes =
        pre ++ [triggerNoteFor P pa items] ∧
      (∀ n ∈ pre, n.noReply = true) ∧ pre.length = items.length - 1) ∧
    (triggerNoteFor P pa items).ids = items.map (fun it => it.id) ∧
    (batchRun env P pm pa items q).notes.map (fun n => n.remaining) =
      (List.range items.length).map (fun j => items.length - 1 - j) := by
  have hrun : batchRun env P pm pa items q = midState env P pm pa items q := by
    unfold batchRun
    have hinit : (initState : ManagerState) = submitState P pm pa [] := rfl
    rw [hinit, submitAll_submitState env P pm pa items [] (by simpa using hids)]
    simp only [List.nil_append]
    rw [submitState_eq_mid env]
    have hterms := runTerms_mid env P pm pa items hids hsess q []
      (by simpa using hperm)
    simpa using hterms
  have hlen : q.length = items.length := hperm.length_eq
  have hpos : 0 < q.length := by
    rw [hlen]
    cases hitems : items with
    | nil => exact absurd hitems hne
    | cons a l => simp
  rw [hrun, midState_notes]
  obtain ⟨pre, hpre, hsil, hlenp⟩ :=
    buildNotesAux_split P pa items q 0 (by omega) hpos
  refine ⟨?_, ?_, ⟨pre, hpre, hsil, by omega⟩, rfl, ?_⟩
  · rw [buildNotesAux_length]
    omega
  · rw [hpre, List.filter_append]
    have hprefilter : pre.filter (fun n => !n.noReply) = [] := by
      rw [List.filter_eq_nil]
      intro n hn
      simp [hsil n hn]
    rw [hprefilter]
    simp [triggerNoteFor]
  · rw [buildNotesAux_remaining P pa items q 0 (by omega), hlen]
    simp

/-- Claim C1 witness: two delegations under owner "p1", the second
terminating first (timeout) and the first terminating last (completion);
one silent notification then one triggering notification enumerating both
ids. -/
theorem C1_batch_single_trigger_witness :
    (batchRun envNone "p1" "m1" "build" batchItems batchOrder).notes.length =
      batchItems.length ∧
    (batchRun envNone "p1" "m1" "build" batchItems batchOrder).notes.filter
      (fun n => !n.noReply) = [triggerNoteFor "p1" "build" batchItems] ∧
    (∃ pre, (batchRun envNone "p1" "m1" "build" batchItems batchOrder).notes =
        pre ++ [triggerNoteFor "p1" "build" batchItems] ∧
      (∀ n ∈ pre, n.noReply = true) ∧ pre.length = batchItems.length - 1) ∧
    (triggerNoteFor "p1" "build" batchItems).ids =
      batchItems.map (fun it => it.id) ∧
    (batchRun envNone "p1" "m1" "build" batchItems batchOrder).notes.map
      (fun n => n.remaining) =
      (List.range batchItems.length).map (fun j => batchItems.length - 1 - j) :=
  C1_batch_single_trigger envNone "p1" "m1" "build" batchItems batchOrder
    (by decide) (by decide) (by decide) (by decide)

/-- Claim C10 witness: a completed delegation whose record file is
missing; reading it fails with not-found instead of synthesizing the
status message. -/
theorem C10_terminal_without_record_not_found_witness :
    readOutput envNone terminalNoRecordState terminalNoRecordState
      (fun _ => Status.complete) "p1" "wise-jade-hare" =
      (0, .error (notFoundMsg "wise-jade-hare")) :=
  C10_terminal_without_record_not_found envNone terminalNoRecordState
    terminalNoRecordState (fun _ => Status.complete) "p1" "wise-jade-hare"
    { id := "wise-jade-hare", sessionID := "s1", parentSessionID := "p1",
      parentMessageID := "m1", parentAgent := "build", prompt := "investigate",
      agent := "general", status := .complete, startedAt := 0,
      completedAt := some 1, error := none, title := some "Title",
      description := some "Desc" }
    (by decide) (by decide) (by decide)

end BackgroundAgents
